import Mathlib

/-!
Verification development for the provo-music-museum repository.

Shallow embedding of the core entity-resolution, extraction, and
co-occurrence-graph code:
  * `src/tools/data_model.py`   (DataStore, classify_event_type)
  * `src/tools/admin_server.py` (merge_artists endpoint)
  * `src/tools/llm_parser.py`   (ArtistParser, rule-based path)
  * `src/scripts/parse_artists_network.py` (ArtistParser network builder)
  * `src/scripts/fix_w_artists.py`         (split_artist_name)
  * `src/scripts/update_network_from_edits.py` (update_network_data)

Python strings are modelled as Lean `String` / `List Char`; `str.lower`
is modelled by ASCII lowering (all strings handled by this code are
ASCII apart from the literal '»', which has no case).  Python dicts are
modelled as insertion-ordered association lists with the dict update
semantics (replace in place if the key exists, append otherwise), which
is exactly CPython's ordered-dict behaviour.  Fields of the Python
dataclasses that are carried through unchanged by every operation
modelled here (spotify_url, website, social_links, notes, timestamps)
are omitted.  Where a scan over a string is implemented with an explicit
fuel argument, the fuel is always instantiated with the string length,
which is enough for the scan to run to completion since every step
consumes at least one character.
-/

namespace PMM

/-! ## Character and string utilities -/

/-- Python `\s` for the ASCII range (space, tab, newline, CR, VT, FF). -/
def isWs (c : Char) : Bool :=
  c = ' ' || c = '\t' || c = '\n' || c = '\r' || c = '\x0b' || c = '\x0c'

/-- ASCII decimal digit (Python `\d` on the inputs handled here). -/
def isDig (c : Char) : Bool := '0' ≤ c && c ≤ '9'

/-- ASCII word character for Python's `\b` word-boundary test. -/
def isWord (c : Char) : Bool :=
  ('a' ≤ c && c ≤ 'z') || ('A' ≤ c && c ≤ 'Z') || isDig c || c = '_'

/-- ASCII alphanumeric, for `[^a-zA-Z0-9]` classes. -/
def isAlnum (c : Char) : Bool :=
  ('a' ≤ c && c ≤ 'z') || ('A' ≤ c && c ≤ 'Z') || isDig c

/-- `str.lower` on the character level (ASCII; '»' etc. unaffected). -/
def lowChar (c : Char) : Char := c.toLower

def lowerL (l : List Char) : List Char := l.map lowChar

/-- `str.lower` on strings. -/
def lowerStr (s : String) : String := ⟨lowerL s.data⟩

/-- Is `pat` a prefix of `s`? -/
def isPre : List Char → List Char → Bool
  | [], _ => true
  | _ :: _, [] => false
  | p :: ps, c :: cs => p = c && isPre ps cs

/-- Python's `pat in s` substring test on char lists. -/
def containsL (s pat : List Char) : Bool :=
  if isPre pat s then true
  else
    match s with
    | [] => false
    | _ :: t => containsL t pat

/-- Python's `sub in s` substring test on strings. -/
def containsStr (s sub : String) : Bool := containsL s.data sub.data

/-- Index of the first occurrence of `pat` in `s`, like `str.find`. -/
def findIdx : List Char → List Char → Option Nat
  | s, pat =>
    if isPre pat s then some 0
    else
      match s with
      | [] => none
      | _ :: t => (findIdx t pat).map (· + 1)

/-- Length of the longest prefix of `s` whose characters satisfy `p`. -/
def countWhile (p : Char → Bool) : List Char → Nat
  | [] => 0
  | c :: t => if p c then countWhile p t + 1 else 0

/-- Python `str.strip()` (whitespace on both ends) on char lists. -/
def trimL (l : List Char) : List Char :=
  ((l.dropWhile isWs).reverse.dropWhile isWs).reverse

/-- Python `str.strip()` on strings. -/
def trimStr (s : String) : String := ⟨trimL s.data⟩

/-- Python `str.strip(chars)`: drop leading and trailing chars from `cs`. -/
def stripSet (cs : List Char) (l : List Char) : List Char :=
  ((l.dropWhile (cs.contains ·)).reverse.dropWhile (cs.contains ·)).reverse

/-- Python `str.rstrip(chars)`: drop trailing chars from `cs`. -/
def rstripSet (cs : List Char) (l : List Char) : List Char :=
  (l.reverse.dropWhile (cs.contains ·)).reverse

/-- Split on every single character satisfying `p` (keeping empty
pieces), the building block for tokenisation. -/
def splitEvery (p : Char → Bool) : List Char → List (List Char)
  | [] => [[]]
  | c :: t =>
    if p c then [] :: splitEvery p t
    else
      match splitEvery p t with
      | [] => [[c]]
      | u :: us => (c :: u) :: us

/-- Python `str.split()` with no arguments: split on whitespace runs,
dropping empty tokens (equivalently: split at every whitespace character
and drop the empty pieces). -/
def wsTokens (l : List Char) : List (List Char) :=
  (splitEvery isWs l).filter (fun t => t ≠ [])

/-- `' '.join(s.split())`: collapse whitespace runs to single spaces and
trim (as used by the name cleaners). -/
def wsCollapse (l : List Char) : List Char :=
  match wsTokens l with
  | [] => []
  | t :: ts => ts.foldl (fun acc u => acc ++ ' ' :: u) t

/-- First-occurrence-preserving dedup, modelling `list(set(xs))` (the
order of a Python `set` is unspecified; none of the properties proved
below depend on the order, so the first-occurrence order is fixed
here). -/
def dedupFirst : List String → List String
  | [] => []
  | x :: t => x :: (dedupFirst t).filter (· ≠ x)

/-- Python `<` on single characters: code-point comparison. -/
def charLtB (a b : Char) : Bool := a.toNat < b.toNat

/-- Python `<` on strings (as char lists): lexicographic by code
point, a proper prefix being smaller. -/
def listLtChars : List Char → List Char → Bool
  | _, [] => false
  | [], _ :: _ => true
  | a :: as, b :: bs =>
    if charLtB a b then true
    else if charLtB b a then false
    else listLtChars as bs

/-- Python `<` on strings. -/
def strLt (a b : String) : Bool := listLtChars a.data b.data

/-! ## src/tools/data_model.py — entities and the DataStore resolver -/

/-- `Artist` dataclass (id, canonical name, aliases; presentation-only
fields omitted). -/
structure Artist where
  id : String
  name : String
  aliases : List String
  deriving Repr, DecidableEq

/-- `ShowArtist` dataclass: one entity on one show's bill. -/
structure ShowArtist where
  artist_id : String
  billing_order : Nat
  is_headliner : Bool
  deriving Repr, DecidableEq

/-- `Show` dataclass, restricted to the fields the merge endpoint
touches (id and the artist links). -/
structure ShowRec where
  id : String
  artists : List ShowArtist
  deriving Repr, DecidableEq

/-- Insertion-ordered association list standing for a Python dict. -/
abbrev Assoc (β : Type) := List (String × β)

/-- `d.get(k)`: value of the first (unique) binding of `k`. -/
def alookup {β : Type} : Assoc β → String → Option β
  | [], _ => none
  | (k, v) :: t, key => if k = key then some v else alookup t key

/-- `d[k] = v`: replace in place if the key exists, else append —
CPython's insertion-ordered dict assignment. -/
def aset {β : Type} : Assoc β → String → β → Assoc β
  | [], key, v => [(key, v)]
  | (k, w) :: t, key, v =>
    if k = key then (k, v) :: t else (k, w) :: aset t key v

/-- `del d[k]`: remove the (unique) binding of `k`. -/
def adel {β : Type} : Assoc β → String → Assoc β
  | [], _ => []
  | (k, w) :: t, key => if k = key then t else (k, w) :: adel t key

/-- `DataStore._normalize_name`: `name.lower().strip()`. -/
def normalizeName (name : String) : String := trimStr (lowerStr name)

/-- The normalization keys one artist contributes to the index:
its canonical name's key followed by each alias's key. -/
def artistKeys (a : Artist) : List String :=
  normalizeName a.name :: a.aliases.map normalizeName

/-- Write one artist's keys into the index (canonical name first, then
each alias, every value the artist's id) — the per-artist body shared by
`add_artist` and `_rebuild_index`. -/
def applyKeys (idx : Assoc String) (a : Artist) : Assoc String :=
  a.aliases.foldl (fun i al => aset i (normalizeName al) a.id)
    (aset idx (normalizeName a.name) a.id)

/-- `DataStore._rebuild_index`: fold every artist's keys into a fresh
index, in the store's insertion order. -/
def rebuildIndex (artists : Assoc Artist) : Assoc String :=
  artists.foldl (fun i p => applyKeys i p.2) []

/-- The in-memory `DataStore` state: `_artists`, `_shows`,
`_artist_index`. -/
structure DataStore where
  artists : Assoc Artist
  shows : Assoc ShowRec
  index : Assoc String
  deriving Repr, DecidableEq

def emptyStore : DataStore := ⟨[], [], []⟩

/-- `DataStore.add_artist`. -/
def addArtist (s : DataStore) (a : Artist) : DataStore :=
  { s with
    artists := aset s.artists a.id a
    index := applyKeys s.index a }

/-- `DataStore.find_artist_by_name`, returning also the id under which
the record was fetched (the Python function returns the shared mutable
object; the fetch id is needed to model in-place mutation of that
object faithfully).  `if artist_id:` makes an empty-string id falsy. -/
def findWithId (s : DataStore) (name : String) : Option (String × Artist) :=
  (alookup s.index (normalizeName name)).bind (fun artistId =>
    if artistId = "" then none
    else (alookup s.artists artistId).map (fun a => (artistId, a)))

/-- `DataStore.find_artist_by_name`. -/
def findArtistByName (s : DataStore) (name : String) : Option Artist :=
  (findWithId s name).map (·.2)

/-- The alias loop of `get_or_create_artist`: return the first artist
found under one of the given aliases, registering `name` as its new
alias when it is not already its canonical name or a recorded alias. -/
def aliasLoop (s : DataStore) (name : String) :
    List String → Option (Artist × DataStore)
  | [] => none
  | al :: rest =>
    match findWithId s al with
    | some (key, a) =>
      if name ∉ a.aliases ∧ name ≠ a.name then
        let a' := { a with aliases := a.aliases ++ [name] }
        some (a', { s with
          artists := aset s.artists key a'
          index := aset s.index (normalizeName name) a.id })
      else some (a, s)
    | none => aliasLoop s name rest

/-- `DataStore.get_or_create_artist`.  `freshId` stands for the
`uuid.uuid4()` value used when a brand-new artist is created. -/
def getOrCreateArtist (s : DataStore) (name : String)
    (aliases : List String) (freshId : String) : Artist × DataStore :=
  match findArtistByName s name with
  | some a => (a, s)
  | none =>
    match aliasLoop s name aliases with
    | some r => r
    | none =>
      let a : Artist := ⟨freshId, name, aliases⟩
      (a, addArtist s a)

/-- `DataStore.update_artist`: overwrite the record and rebuild the
whole index. -/
def updateArtist (s : DataStore) (a : Artist) : DataStore :=
  let artists' := aset s.artists a.id a
  { s with artists := artists', index := rebuildIndex artists' }

/-! ## src/tools/admin_server.py — the merge_artists endpoint -/

/-- Outcome of the `/api/artists/merge` endpoint: HTTP 400, HTTP 404,
an uncaught `KeyError` (double deletion), or success with the number of
updated shows. -/
inductive MergeOutcome where
  | badRequest
  | notFound
  | keyError
  | success (updatedShows : Nat)
  deriving Repr, DecidableEq

/-- The lookup loop over `merge_ids`: `none` as soon as one id is
unknown (the endpoint returns 404 at the first missing id, before any
mutation). -/
def collectMergeArtists (s : DataStore) : List String → Option (List Artist)
  | [] => some []
  | mid :: rest =>
    match alookup s.artists mid with
    | some a => (collectMergeArtists s rest).map (a :: ·)
    | none => none

/-- The deletion loop `del store._artists[artist.id]`: `false` means a
`KeyError` was raised, leaving the deletions made so far in place. -/
def delArtists (arts : Assoc Artist) : List Artist → Bool × Assoc Artist
  | [] => (true, arts)
  | a :: rest =>
    match alookup arts a.id with
    | some _ => delArtists (adel arts a.id) rest
    | none => (false, arts)

/-- The alias collection of `merge_artists`: the union (as a Python
set) of the primary's aliases, each merged artist's name, and each
merged artist's aliases, with the primary's own name discarded,
returned sorted (`sorted(list(all_aliases))`). -/
def mergeAliases (primary : Artist) (mergeList : List Artist) : List String :=
  ((dedupFirst (primary.aliases ++
      mergeList.foldr (fun m acc => m.name :: (m.aliases ++ acc)) [])).filter
    (· ≠ primary.name)).insertionSort (fun x y => strLt y x = false)

/-- The show-link re-pointing loop of `merge_artists`: every link whose
artist id is in `mergeIds` is re-pointed at the primary. -/
def repointShows (shows : Assoc ShowRec) (mergeIds : List String)
    (primaryId : String) : Assoc ShowRec :=
  shows.map (fun p => (p.1,
    { p.2 with artists := p.2.artists.map (fun sa =>
        if sa.artist_id ∈ mergeIds then
          { sa with artist_id := primaryId } else sa) }))

/-- `updated_count`: how many shows had at least one link re-pointed. -/
def countUpdatedShows (shows : Assoc ShowRec) (mergeIds : List String) : Nat :=
  (shows.filter (fun p =>
    p.2.artists.any (fun sa => sa.artist_id ∈ mergeIds))).length

/-- `merge_artists` (admin_server.py).  The iteration order of
`all_shows()` (sorted by date) only affects console order, not the
final state, so shows are re-pointed in store order here. -/
def mergeArtists (s : DataStore) (primaryId : String)
    (mergeIds : List String) : MergeOutcome × DataStore :=
  if primaryId = "" ∨ mergeIds = [] then (.badRequest, s)
  else
    match alookup s.artists primaryId with
    | none => (.notFound, s)
    | some primary =>
      match collectMergeArtists s mergeIds with
      | none => (.notFound, s)
      | some mergeList =>
        let primary' := { primary with aliases := mergeAliases primary mergeList }
        let s1 := updateArtist
          { s with shows := repointShows s.shows mergeIds primaryId } primary'
        match delArtists s1.artists mergeList with
        | (false, partialArts) => (.keyError, { s1 with artists := partialArts })
        | (true, arts') =>
          (.success (countUpdatedShows s.shows mergeIds),
            { s1 with artists := arts', index := rebuildIndex arts' })

/-! ## Resolver mutations (for the index/injectivity invariant) -/

/-- One mutation of the resolver state, as named by the spec:
`add_artist`, `get_or_create_artist`, `update_artist`, `merge`. -/
inductive Mutation where
  | add (a : Artist)
  | getOrCreate (name : String) (aliases : List String) (freshId : String)
  | update (a : Artist)
  | merge (primaryId : String) (mergeIds : List String)

def applyMutation (s : DataStore) : Mutation → DataStore
  | .add a => addArtist s a
  | .getOrCreate n als fid => (getOrCreateArtist s n als fid).2
  | .update a => updateArtist s a
  | .merge pid mids => (mergeArtists s pid mids).2

/-- Well-formed store: distinct artist keys, and each record's own id
equals its key and is nonempty (what the API always produces: records
are stored under `artist.id`, ids are uuid4 strings). -/
def storeWF (s : DataStore) : Prop :=
  (s.artists.map Prod.fst).Nodup ∧ ∀ p ∈ s.artists, p.2.id = p.1 ∧ p.1 ≠ ""

/-- The index is exactly what `_rebuild_index` would produce from the
current entity set (the spec's "index is a derived cache"). -/
def indexMatchesRebuild (s : DataStore) : Prop :=
  ∀ k, alookup s.index k = alookup (rebuildIndex s.artists) k

/-- Side conditions under which a mutation is issued by the running
system: fresh uuid ids for creation, well-formed stores, and a
duplicate-free merge list. -/
def mutOK (s : DataStore) : Mutation → Prop
  | .add a => alookup s.artists a.id = none
  | .getOrCreate _ _ fid => storeWF s ∧ alookup s.artists fid = none
  | .update _ => True
  | .merge _ mids => storeWF s ∧ mids.Nodup

def keysDisjoint (l1 l2 : List String) : Bool :=
  l1.all (fun k => !(l2.contains k))

def pairwiseDisjointKeys : List Artist → Bool
  | [] => true
  | a :: rest =>
    rest.all (fun b => keysDisjoint (artistKeys a) (artistKeys b)) &&
      pairwiseDisjointKeys rest

/-- The spec's injectivity invariant: no two live entities share a
normalization key. -/
def keysInjective (s : DataStore) : Bool :=
  pairwiseDisjointKeys (s.artists.map Prod.snd)

/-! ## src/tools/data_model.py — event-type keyword lists -/

def NON_MUSIC_KEYWORDS : List String :=
  ["closed", "renovation", "private event", "flea market",
   "journal jam", "adult prom", "fashion show"]

def OPEN_MIC_KEYWORDS : List String := ["open-mic", "open mic", "acoustic night"]

def IMPROV_KEYWORDS : List String := ["thrillionaires", "improv theater", "improv"]

/-- `classify_event_type`: (is_music_event, event_type). -/
def classifyEventType (title description : String) : Bool × String :=
  let text := lowerStr (title ++ " " ++ description)
  if NON_MUSIC_KEYWORDS.any (fun kw => containsStr text kw) then
    (false, if containsStr text "closed" then "closed" else "other")
  else if OPEN_MIC_KEYWORDS.any (fun kw => containsStr text kw) then
    (true, "open_mic")
  else if IMPROV_KEYWORDS.any (fun kw => containsStr text kw) then
    (true, "improv")
  else (true, "concert")

/-! ## src/tools/llm_parser.py — data types and classification -/

/-- `ParsedArtist` dataclass.  Confidence values are the literal
constants 1.0 / 0.9 / 0.7, only ever assigned and compared, so they are
modelled as rationals. -/
structure ParsedArtist where
  name : String
  is_headliner : Bool
  notes : Option String
  confidence : ℚ
  deriving Repr, DecidableEq

/-- `ParseResult` dataclass. -/
structure ParseResult where
  artists : List ParsedArtist
  is_music_event : Bool
  event_type : String
  genre : Option String
  ticket_price : Option String
  sold_out : Bool
  confidence : ℚ
  needs_review : Bool
  review_reason : Option String
  deriving Repr, DecidableEq

/-- Keywords of `ArtistParser._is_closed_event`. -/
def CLOSED_EVENT_KEYWORDS : List String :=
  ["closed for", "renovation", "private event", "flea market",
   "journal jam", "adult prom", "fashion show"]

/-- `ArtistParser._is_closed_event` (argument is already lowercased by
the callers, as in the Python code). -/
def isClosedEvent (text : String) : Bool :=
  CLOSED_EVENT_KEYWORDS.any (fun kw => containsStr text kw)

/-- `ArtistParser._is_open_mic`. -/
def isOpenMic (text : String) : Bool :=
  containsStr text "open-mic" || containsStr text "open mic"

/-- `ArtistParser._is_improv`. -/
def isImprov (text : String) : Bool :=
  containsStr text "thrillionaires" || containsStr text "improv theater"

/-! ## llm_parser regex helpers

Each Python `re` pattern used by the rule-based parser is realised as a
hand-rolled matcher with exactly the leftmost / greedy / backtracking
semantics of the original pattern (worked out pattern by pattern).
Matchers take the suffix at the current scan position (plus the
preceding character where the pattern uses a word boundary) and return
the remaining suffix after the match. -/

/-- Case-sensitive literal: remainder of `s` after the prefix `lit`. -/
def dropLit (lit : String) (s : List Char) : Option (List Char) :=
  if isPre lit.data s then some (s.drop lit.data.length) else none

/-- `isPre` up to ASCII case (the literal is given lowercased). -/
def isPreCI : List Char → List Char → Bool
  | [], _ => true
  | _ :: _, [] => false
  | p :: ps, c :: cs => p = lowChar c && isPreCI ps cs

/-- Case-insensitive literal: remainder of `s` after the prefix. -/
def dropLitCI (lit : String) (s : List Char) : Option (List Char) :=
  if isPreCI lit.data s then some (s.drop lit.data.length) else none

/-- Global `re.sub(pat, '', s)` driver: scan left to right, removing
each non-overlapping match; `prev` is the character before the current
position (for word boundaries).  Fuel is the string length; every
matcher consumes at least one character per match. -/
def globalSubP (m : Option Char → List Char → Option (List Char)) :
    Nat → Option Char → List Char → List Char
  | 0, _, s => s
  | Nat.succ f, prev, s =>
    match s with
    | [] => []
    | c :: t =>
      match m prev (c :: t) with
      | some rem =>
        if rem.length < (c :: t).length then
          let consumed := (c :: t).take ((c :: t).length - rem.length)
          globalSubP m f ((consumed.getLast?).orElse (fun _ => prev)) rem
        else c :: globalSubP m f (some c) t
      | none => c :: globalSubP m f (some c) t

def gsubP (m : Option Char → List Char → Option (List Char))
    (s : List Char) : List Char :=
  globalSubP m s.length none s

/-- `\d{1,2}pm»?\s*` (the tail of the time-marker pattern): try two
digits, then one. -/
def afterTimeDigits (r : List Char) : Option (List Char) :=
  let go (c : Nat) : Option (List Char) :=
    let ds := r.take c
    if ds.length = c && ds.all isDig then
      match dropLit "pm" (r.drop c) with
      | some r3 =>
        let r4 := if r3.head? = some '»' then r3.drop 1 else r3
        some (r4.drop (countWhile isWs r4))
      | none => none
    else none
  (go 2).orElse (fun _ => go 1)

/-- `re.sub(r'^\d*\s*\d{1,2}pm»?\s*', '', text)`: anchored, with the
greedy `\d*` backtracking from the longest digit prefix down. -/
def stripTimeMarker (s : List Char) : List Char :=
  let dmax := countWhile isDig s
  match (List.range (dmax + 1)).reverse.findSome? (fun a =>
      let r1 := s.drop a
      afterTimeDigits (r1.drop (countWhile isWs r1))) with
  | some rem => rem
  | none => s

/-- `re.sub(r'^\([^)]+\)\s*', '', text)`: a leading parenthetical with
nonempty `)`-free content, plus trailing whitespace. -/
def stripLeadTag (s : List Char) : List Char :=
  match s with
  | '(' :: rest =>
    let n := countWhile (fun c => c != ')') rest
    if n ≥ 1 && (rest.drop n).head? = some ')' then
      let r := rest.drop (n + 1)
      r.drop (countWhile isWs r)
    else s
  | _ => s

/-- The price pattern `\$\d+` with an optional slash-or-dash range tail
`\$?\d+`: length of the match at the head of `s`. -/
def matchPriceLen (s : List Char) : Option Nat :=
  match s with
  | '$' :: r =>
    let d1 := countWhile isDig r
    if d1 = 0 then none
    else
      let r1 := r.drop d1
      let extra :=
        match r1 with
        | c :: r1' =>
          if c = '/' || c = '-' then
            let dollar := r1'.head? = some '$'
            let r2 := if dollar then r1'.drop 1 else r1'
            let d2 := countWhile isDig r2
            if d2 ≥ 1 then 1 + (if dollar then 1 else 0) + d2 else 0
          else 0
        | [] => 0
      some (1 + d1 + extra)
  | _ => none

/-- The price-removal sub of `_clean_text`: the price pattern above
followed by `!?\s*`. -/
def matchPriceClean (_ : Option Char) (s : List Char) : Option (List Char) :=
  match matchPriceLen s with
  | some n =>
    let r := s.drop n
    let r2 := if r.head? = some '!' then r.drop 1 else r
    some (r2.drop (countWhile isWs r2))
  | none => none

/-- Word boundary before the current position. -/
def boundaryBefore (prev : Option Char) : Bool :=
  match prev with
  | none => true
  | some p => !isWord p

/-- The `!?\b` tail shared by the SOLD OUT and CD/EP-release patterns:
take the `!` only when a word character follows it (so the boundary
holds after `!`), otherwise end at the previous word character provided
a non-word character or the end of the string follows. -/
def bangBoundary (r : List Char) : Option (List Char) :=
  if r.head? = some '!' &&
      (match (r.drop 1).head? with | some c => isWord c | none => false) then
    some (r.drop 1)
  else
    match r.head? with
    | some c => if isWord c then none else some r
    | none => some r

/-- `re.sub(r'\bSOLD\s*OUT!?\b', '', text, flags=re.I)` matcher. -/
def matchSoldOut (prev : Option Char) (s : List Char) : Option (List Char) :=
  if !boundaryBefore prev then none
  else
    match dropLitCI "sold" s with
    | none => none
    | some r1 =>
      match dropLitCI "out" (r1.drop (countWhile isWs r1)) with
      | none => none
      | some r3 => bangBoundary r3

/-- `re.sub(r'\b(?:CD|EP)\s*[Rr]elease!?\b', '', text)` matcher
(case-sensitive apart from `[Rr]`). -/
def matchCdEp (prev : Option Char) (s : List Char) : Option (List Char) :=
  if !boundaryBefore prev then none
  else
    match (dropLit "CD" s).orElse (fun _ => dropLit "EP" s) with
    | none => none
    | some r1 =>
      match r1.drop (countWhile isWs r1) with
      | c :: r2 =>
        if c = 'R' || c = 'r' then
          match dropLit "elease" r2 with
          | none => none
          | some r3 => bangBoundary r3
        else none
      | [] => none

def TOURING_WORDS : List String :=
  ["touring", "from", "ca", "ak", "nv", "slc", "id", "wa", "nm", "nyc"]

/-- `re.sub(r'\([^)]*(?:touring|from|CA|AK|NV|SLC|ID|WA|NM|NYC)[^)]*\)',
'', text, flags=re.I)` matcher: a parenthetical whose `)`-free content
contains one of the location words, case-insensitively. -/
def matchTouring (_ : Option Char) (s : List Char) : Option (List Char) :=
  match s with
  | '(' :: rest =>
    let n := countWhile (fun c => c != ')') rest
    if (rest.drop n).head? = some ')' then
      if TOURING_WORDS.any (fun w => containsL (lowerL (rest.take n)) w.data)
      then some (rest.drop (n + 1))
      else none
    else none
  | _ => none

/-- `re.sub(r'\(formerly[^)]+\)', '', text, flags=re.I)` matcher. -/
def matchFormerly (_ : Option Char) (s : List Char) : Option (List Char) :=
  match s with
  | '(' :: rest =>
    match dropLitCI "formerly" rest with
    | some r1 =>
      let n := countWhile (fun c => c != ')') r1
      if n ≥ 1 && (r1.drop n).head? = some ')' then some (r1.drop (n + 1))
      else none
    | none => none
  | _ => none

/-- `re.sub(r'\(acoustic\)', '', text, flags=re.I)` matcher. -/
def matchAcoustic (_ : Option Char) (s : List Char) : Option (List Char) :=
  match s with
  | '(' :: rest =>
    match dropLitCI "acoustic" rest with
    | some (')' :: r) => some r
    | _ => none
  | _ => none

/-- `ArtistParser._clean_text`: the eight removals, in source order,
then a final strip. -/
def cleanText (text : String) : String :=
  let s1 := stripTimeMarker text.data
  let s2 := stripLeadTag s1
  let s3 := gsubP matchPriceClean s2
  let s4 := gsubP matchSoldOut s3
  let s5 := gsubP matchCdEp s4
  let s6 := gsubP matchTouring s5
  let s7 := gsubP matchFormerly s6
  let s8 := gsubP matchAcoustic s7
  ⟨trimL s8⟩

/-! ## llm_parser tokenizer and cleaner -/

/-- `re.split` driver: scan left to right, ending the current piece at
every match of the separator matcher.  Fuel is the string length. -/
def splitByMatcher (m : List Char → Option (List Char)) :
    Nat → List Char → List (List Char)
  | 0, s => [s]
  | Nat.succ f, s =>
    match s with
    | [] => [[]]
    | c :: t =>
      match m (c :: t) with
      | some rem =>
        if rem.length < (c :: t).length then [] :: splitByMatcher m f rem
        else
          match splitByMatcher m f t with
          | [] => [[c]]
          | u :: us => (c :: u) :: us
      | none =>
        match splitByMatcher m f t with
        | [] => [[c]]
        | u :: us => (c :: u) :: us

/-- Separator `\s+w/\s*` (re.I): a whitespace run, the marker `w/`, and
any following whitespace.  A match can only start at the beginning of a
whitespace run that abuts the marker. -/
def matchWSep (s : List Char) : Option (List Char) :=
  match s with
  | c :: _ =>
    if isWs c then
      match s.drop (countWhile isWs s) with
      | 'w' :: '/' :: r => some (r.drop (countWhile isWs r))
      | 'W' :: '/' :: r => some (r.drop (countWhile isWs r))
      | _ => none
    else none
  | [] => none

/-- Separator `,\s*`. -/
def matchCommaSep (s : List Char) : Option (List Char) :=
  match s with
  | ',' :: r => some (r.drop (countWhile isWs r))
  | _ => none

/-- Separator `\s+and\s+` (re.I). -/
def matchAndSep (s : List Char) : Option (List Char) :=
  match s with
  | c :: _ =>
    if isWs c then
      match dropLitCI "and" (s.drop (countWhile isWs s)) with
      | some r =>
        let m := countWhile isWs r
        if m ≥ 1 then some (r.drop m) else none
      | none => none
    else none
  | [] => none

/-- The and-level stage of `ArtistParser._split_artists`: a piece that
survived the with-marker and comma splits is split on the word "and"
when the lowercased whole piece contains `" and "` but not `"& the"`,
and is kept whole otherwise. -/
def andStep (sub : List Char) : List (List Char) :=
  if containsL (lowerL sub) " and ".data &&
      !containsL (lowerL sub) "& the".data then
    splitByMatcher matchAndSep sub.length sub
  else [sub]

/-- `ArtistParser._split_artists`: split on the with-marker, then on
commas, then run the and-level stage on every piece; finally strip
every token and drop the empty ones. -/
def splitArtists (text : String) : List String :=
  let parts := splitByMatcher matchWSep text.data.length text.data
  let allArtists := parts.foldr (fun part acc =>
    (splitByMatcher matchCommaSep part.length part).foldr (fun sub acc2 =>
      andStep sub ++ acc2) [] ++ acc) []
  (allArtists.map trimL).filterMap
    (fun a => if a.isEmpty then none else some (String.mk a))

/-- `ArtistParser._clean_artist_name`: strip a leading digit run (and
following whitespace), trailing punctuation, wrapping quotes, and
collapse whitespace. -/
def cleanArtistNameLLM (name : String) : String :=
  let s0 := name.data
  let d := countWhile isDig s0
  let s1 :=
    if d ≥ 1 then (s0.drop d).drop (countWhile isWs (s0.drop d)) else s0
  let s2 := rstripSet ['.', ',', ';', ':', '!'] s1
  let s3 := stripSet ['"', '\''] s2
  ⟨trimL (wsCollapse s3)⟩

/-- The noise vocabulary of `ArtistParser._is_noise`. -/
def NOISE_TERMS : List String :=
  ["etc", "art", "old", "by", "if", "er", "rts", "sdr", "ned", "apt",
   "ben", "dan", "reno", "velour", "cabaret", "showcase", "night",
   "music", "featuring", "poetry", "open-mic", "acoustic night"]

/-- `ArtistParser._is_noise`: exact whole-string (case-insensitive)
membership in the noise vocabulary, or length below 2. -/
def isNoise (name : String) : Bool :=
  NOISE_TERMS.contains (lowerStr name) || name.length < 2

/-! ## llm_parser rule-based parse -/

def GENRE_WORDS : List String :=
  ["rock", "pop", "indie", "folk", "punk", "emo", "ska", "blues",
   "acoustic", "electronic"]

/-- The genre regex of `_parse_rules_based` (re.I): leftmost
parenthetical whose `)`-free content contains a genre word at offset at
least one (the pattern requires a nonempty chunk before the word);
group(1) is the content in its original case. -/
def searchGenre : Nat → List Char → Option String
  | 0, _ => none
  | Nat.succ f, s =>
    match s with
    | [] => none
    | '(' :: rest =>
      let n := countWhile (fun c => c != ')') rest
      if (rest.drop n).head? = some ')' then
        if GENRE_WORDS.any (fun w =>
            containsL (lowerL ((rest.take n).drop 1)) w.data) then
          some ⟨rest.take n⟩
        else searchGenre f rest
      else none
    | _ :: t => searchGenre f t

/-- The price regex of `_parse_rules_based`: leftmost price match, in
original text. -/
def searchPrice : Nat → List Char → Option String
  | 0, _ => none
  | Nat.succ f, s =>
    match s with
    | [] => none
    | c :: t =>
      match matchPriceLen (c :: t) with
      | some n => some ⟨(c :: t).take n⟩
      | none => searchPrice f t

/-- `ArtistParser._parse_rules_based`. -/
def parseRulesBased (title description : String) : ParseResult :=
  let text :=
    if description ≠ "" ∧ description ≠ title
    then title ++ " " ++ description else title
  let genre := searchGenre text.data.length text.data
  let ticketPrice := searchPrice text.data.length text.data
  let soldOut := containsStr (lowerStr text) "sold out"
  let cleaned := cleanText text
  let rawArtists := splitArtists cleaned
  let artists := rawArtists.enum.filterMap (fun p =>
    let nm := cleanArtistNameLLM p.2
    if nm ≠ "" ∧ nm.length > 1 ∧ isNoise nm = false then
      some ⟨nm, p.1 == 0, none, 7/10⟩
    else none)
  let base : Bool × Option String :=
    if artists.any (fun a => containsStr a.name "&") then
      (true, some "Contains \x27&\x27 - verify if band name or separator")
    else (false, none)
  let review :=
    if artists.isEmpty && !isClosedEvent (lowerStr text) then
      (true, some "No artists extracted from apparent music event")
    else base
  { artists := artists
    is_music_event := true
    event_type := "concert"
    genre := genre
    ticket_price := ticketPrice
    sold_out := soldOut
    confidence := 7/10
    needs_review := review.1
    review_reason := review.2 }

/-- `ArtistParser.parse` in the rule-based configuration (`use_llm =
False`; the delegated LLM strategy is an out-of-scope external service
and is never reached by the classification short-circuits anyway). -/
def parse (title description : String) : ParseResult :=
  let textLower := lowerStr (title ++ " " ++ description)
  if isClosedEvent textLower then
    { artists := [], is_music_event := false, event_type := "closed",
      genre := none, ticket_price := none, sold_out := false,
      confidence := 1, needs_review := false, review_reason := none }
  else if isOpenMic textLower then
    { artists := [], is_music_event := true, event_type := "open_mic",
      genre := none, ticket_price := none, sold_out := false,
      confidence := 1, needs_review := false, review_reason := none }
  else if isImprov textLower then
    { artists := [], is_music_event := true, event_type := "improv",
      genre := none, ticket_price := none, sold_out := false,
      confidence := 9/10, needs_review := false, review_reason := none }
  else parseRulesBased title description

/-! ## src/scripts/parse_artists_network.py — network ArtistParser -/

/-- A show record as consumed by the network script (JSON dicts; absent
fields are `none`, and `str(...)` is applied to the artists field by
the script so it is modelled as a string). -/
structure NShow where
  date : Option String
  title : Option String
  artists : Option String
  description : Option String
  deriving Repr, DecidableEq

/-- Python truthiness of an optional string field. -/
def truthy : Option String → Bool
  | none => false
  | some s => s ≠ ""

/-- The separator alternation of `_parse_artist_string`
(comma-plus-spaces, or the word "and", or an ampersand, the last two
surrounded by whitespace; case-sensitive, alternatives tried in
order). -/
def matchNetSep (s : List Char) : Option (List Char) :=
  match s with
  | [] => none
  | ',' :: r => some (r.drop (countWhile isWs r))
  | c :: _ =>
    if isWs c then
      let rest := s.drop (countWhile isWs s)
      let tryAnd : Option (List Char) :=
        match dropLit "and" rest with
        | some r =>
          let m := countWhile isWs r
          if m ≥ 1 then some (r.drop m) else none
        | none => none
      match tryAnd with
      | some r => some r
      | none =>
        match rest with
        | '&' :: r =>
          let m := countWhile isWs r
          if m ≥ 1 then some (r.drop m) else none
        | _ => none
    else none

/-- Literal (non-regex) split, e.g. Python `part.split(' & ')`. -/
def splitOnLit (sep : String) (s : List Char) : List (List Char) :=
  splitByMatcher
    (fun u => if sep ≠ "" && isPre sep.data u then some (u.drop sep.data.length) else none)
    s.length s

/-- `ArtistParser._parse_artist_string` (network script). -/
def parseArtistString (artistString : String) : List String :=
  if artistString = "" ∨ lowerStr artistString ∈ ["none", "null", ""] then []
  else
    (splitByMatcher matchNetSep artistString.data.length artistString.data).foldr
      (fun part acc =>
        let p := trimL part
        if p.isEmpty then acc
        else if containsL p " & ".data && !p.contains ',' then
          ((splitOnLit " & " p).filterMap (fun q =>
            let q' := trimL q
            if q'.isEmpty then none else some (String.mk q'))) ++ acc
        else String.mk p :: acc) []

/-- A parenthetical (with its leading whitespace) whose content
contains `word` case-insensitively — the three targeted removals of
`_clean_artist_name`. -/
def matchParenWord (word : String) (_ : Option Char) (s : List Char) :
    Option (List Char) :=
  let n := countWhile isWs s
  match s.drop n with
  | '(' :: rest =>
    let m := countWhile (fun c => c != ')') rest
    if (rest.drop m).head? = some ')' then
      if containsL (lowerL (rest.take m)) word.data then some (rest.drop (m + 1))
      else none
    else none
  | _ => none

/-- Any remaining parenthetical (with leading whitespace). -/
def matchParenAny (_ : Option Char) (s : List Char) : Option (List Char) :=
  let n := countWhile isWs s
  match s.drop n with
  | '(' :: rest =>
    let m := countWhile (fun c => c != ')') rest
    if (rest.drop m).head? = some ')' then some (rest.drop (m + 1)) else none
  | _ => none

def NET_META_TERMS : List String :=
  ["none", "null", "tba", "tbd", "art", "poetry", "music", "featuring"]

def NET_GENERIC_TERMS : List String :=
  ["cabaret", "velour", "showcase", "night", "release", "cd", "ep"]

/-- `ArtistParser._clean_artist_name` (network script).  Note the final
generic-term rejection is a substring containment test (`term in
name.lower()`), unlike the exact-match test of the llm_parser. -/
def cleanArtistNameNet (name : String) : String :=
  if name = "" then ""
  else
    let s0 := trimL name.data
    let s1 := gsubP (matchParenWord "formerly") s0
    let s2 := gsubP (matchParenWord "from") s1
    let s3 := gsubP (matchParenWord "cd release") s2
    let s4 := gsubP matchParenAny s3
    let s5 := trimL (stripSet ['\''] (stripSet ['"'] s4))
    let s6 := rstripSet ['.', ',', ';', ':'] s5
    let nm := wsCollapse s6
    if nm.length < 2 then ""
    else if NET_META_TERMS.contains (lowerStr (String.mk nm)) then ""
    else if NET_GENERIC_TERMS.any (fun t => containsL (lowerL nm) t.data) then ""
    else String.mk nm

/-- `ArtistParser.normalize_artist_name` (network script):
`name.lower().strip()`; the display-name side table it also fills does
not feed back into extraction or the edge set. -/
def normalizeArtistNet (name : String) : String := trimStr (lowerStr name)

def SKIP_TITLE_KEYWORDS : List String :=
  ["open-mic", "open mic", "prom", "dance", "festival"]

def GENERIC_TITLE_KEYWORDS : List String :=
  ["cabaret", "showcase", "acoustic showcase"]

def DAY_NAMES : List String := ["mon", "tue", "wed", "thu", "fri", "sat", "sun"]

/-- The title/description prefix removal `^\d+pm` plus a run of `»` or
whitespace. -/
def stripTimeMarkerNet (s : List Char) : List Char :=
  let d := countWhile isDig s
  if d ≥ 1 then
    match dropLit "pm" (s.drop d) with
    | some r => r.dropWhile (fun c => c = '»' || isWs c)
    | none => s
  else s

/-- Python `s.split(sep, 1)`. -/
def splitOnce (sep : String) (s : String) : List String :=
  match findIdx s.data sep.data with
  | some i => [String.mk (s.data.take i),
               String.mk (s.data.drop (i + sep.data.length))]
  | none => [s]

/-- The shared headliner/openers handling of the `' w/ '` branches. -/
def wBranch (cleanedText : String) : List String :=
  match splitOnce " w/ " cleanedText with
  | p0 :: rest =>
    let headliner := cleanArtistNameNet (trimStr p0)
    (if headliner ≠ "" then [headliner] else []) ++
      (match rest with
       | p1 :: _ => parseArtistString p1
       | [] => [])
  | [] => []

/-- `ArtistParser.extract_artists_from_show` (network script).  The
final `list(set(...))` dedup is modelled keeping first occurrences; no
property proved below depends on the (unspecified) set order. -/
def extractArtistsFromShow (sh : NShow) : List String :=
  if !truthy sh.date || !truthy sh.title then []
  else
    let titleLow := lowerStr (sh.title.getD "")
    if SKIP_TITLE_KEYWORDS.any (fun k => containsStr titleLow k) then []
    else
      let fromArtists :=
        if truthy sh.artists then parseArtistString (sh.artists.getD "")
        else []
      let titleField := sh.title.getD ""
      let fromTitle :=
        if titleField ≠ "" then
          let st := trimStr titleField
          if (!st.data.isEmpty && st.data.all isDig) ||
              DAY_NAMES.contains (lowerStr st) then []
          else
            let titleClean : String :=
              ⟨trimL (stripSet ['"'] (stripTimeMarkerNet (stripLeadTag titleField.data)))⟩
            if GENERIC_TITLE_KEYWORDS.any
                (fun k => containsStr (lowerStr titleClean) k) then []
            else if !containsStr titleClean " w/ " &&
                containsStr titleClean "," then
              parseArtistString titleClean
            else if containsStr titleClean " w/ " then wBranch titleClean
            else []
        else []
      let artists1 := fromArtists ++ fromTitle
      let artists2 :=
        if artists1.isEmpty then
          let desc := sh.description.getD ""
          if desc ≠ "" then
            let descClean : String :=
              ⟨stripTimeMarkerNet (stripLeadTag desc.data)⟩
            if containsStr descClean " w/ " then wBranch descClean
            else if containsStr descClean "," then parseArtistString descClean
            else []
          else []
        else []
      dedupFirst ((artists1 ++ artists2).filterMap (fun a =>
        let c := cleanArtistNameNet a
        if c ≠ "" ∧ c.length > 1 then some c else none))

/-- Python `tuple(sorted([a, b]))` (stable: swap only when `b < a`). -/
def sort2 (a b : String) : String × String :=
  if strLt b a then (b, a) else (a, b)

/-- `self.artist_connections[pair] += 1` on a `defaultdict(int)`. -/
def bumpConn : List ((String × String) × Nat) → (String × String) →
    List ((String × String) × Nat)
  | [], p => [(p, 1)]
  | (q, n) :: rest, p =>
    if q = p then (q, n + 1) :: rest else (q, n) :: bumpConn rest p

/-- The `i < j` double loop over one show's artist list, normalizing
and sorting each pair. -/
def showPairs : List String → List (String × String)
  | [] => []
  | a :: rest =>
    rest.map (fun b => sort2 (normalizeArtistNet a) (normalizeArtistNet b)) ++
      showPairs rest

/-- The connection-building part of `ArtistParser.process_all_shows`
(the per-artist show/node bookkeeping does not influence the edge
set). -/
def processConnections (shows : List NShow) : List ((String × String) × Nat) :=
  shows.foldl (fun conns sh =>
    let artists := extractArtistsFromShow sh
    if artists.length > 1 then (showPairs artists).foldl bumpConn conns
    else conns) []

/-! ## src/scripts/fix_w_artists.py — split_artist_name -/

/-- `re.match(r'^\s*w/\s*', name, re.I)`: the name begins with the
with-marker (after optional whitespace). -/
def leadingWMarker (name : String) : Bool :=
  match name.data.dropWhile isWs with
  | 'w' :: '/' :: _ => true
  | 'W' :: '/' :: _ => true
  | _ => false

/-- The with-marker split alternation of `split_artist_name`
(whitespace + marker + whitespace, marker with one-sided whitespace, or
the bare marker; re.I). -/
def matchWAny (s : List Char) : Option (List Char) :=
  match s with
  | [] => none
  | c :: _ =>
    if isWs c then
      match s.drop (countWhile isWs s) with
      | 'w' :: '/' :: r => some (r.drop (countWhile isWs r))
      | 'W' :: '/' :: r => some (r.drop (countWhile isWs r))
      | _ => none
    else
      match s with
      | 'w' :: '/' :: r => some (r.drop (countWhile isWs r))
      | 'W' :: '/' :: r => some (r.drop (countWhile isWs r))
      | _ => none

/-- The leading/trailing junk class of `split_artist_name`
(quotes, comma, whitespace, dollar, star, bang, parentheses). -/
def W_CLASS : List Char :=
  ['"', '\'', ',', ' ', '\t', '\n', '\r', '\x0b', '\x0c', '$', '*', '!',
   '(', ')']

/-- Is there a `$` immediately followed by a digit anywhere? -/
def hasDollarDigit : List Char → Bool
  | [] => false
  | '$' :: c :: t => if isDig c then true else hasDollarDigit (c :: t)
  | _ :: t => hasDollarDigit t

/-- Index of the first `$`-digit occurrence. -/
def findDollarIdx : List Char → Option Nat
  | [] => none
  | '$' :: c :: t =>
    if isDig c then some 0 else (findDollarIdx (c :: t)).map (· + 1)
  | _ :: t => (findDollarIdx t).map (· + 1)

/-- Truncation at the first price token, including the whitespace run
before it (the price sub with a trailing `.*$`). -/
def truncDollar (s : List Char) : List Char :=
  match findDollarIdx s with
  | some i =>
    let pre := s.take i
    pre.take (pre.length - countWhile isWs pre.reverse)
  | none => s

/-- Truncation at the first case-insensitive `SOLD OUT`, including the
optional star and whitespace the pattern absorbs before it. -/
def truncSoldOut (s : List Char) : List Char :=
  match findIdx (lowerL s) "sold out".data with
  | some k =>
    let pre := s.take k
    let p2 := pre.take (pre.length - countWhile isWs pre.reverse)
    let p3 := if p2.reverse.head? = some '*' then p2.take (p2.length - 1) else p2
    p3.take (p3.length - countWhile isWs p3.reverse)
  | none => s

/-- Squash runs of two or more double quotes to a single space. -/
def squashQQ : Nat → List Char → List Char
  | 0, s => s
  | Nat.succ _, [] => []
  | Nat.succ f, '"' :: '"' :: t => ' ' :: squashQQ f (t.dropWhile (· = '"'))
  | Nat.succ f, c :: t => c :: squashQQ f t

/-- The per-part cleanup loop of `split_artist_name`. -/
def cleanWPart (part : List Char) : List Char :=
  let p1 := trimL part
  let p2 := stripSet W_CLASS p1
  let p3 := wsCollapse p2
  let p4 :=
    if containsL (lowerL p3) "sold out".data || hasDollarDigit p3 then
      trimL (truncSoldOut (truncDollar p3))
    else p3
  let p5 := stripSet ['"', '\''] p4
  let p6 := squashQQ p5.length p5
  wsCollapse p6

/-- `split_artist_name` (fix_w_artists.py): `none` models Python's
`None` (nothing to split / incomplete entry). -/
def splitArtistName (name : String) : Option (List String) :=
  if leadingWMarker name then none
  else
    let parts := splitByMatcher matchWAny name.data.length name.data
    if parts.length > 1 then
      let cleanedParts := parts.filterMap (fun part =>
        let p := cleanWPart part
        if p.length > 1 && !p.all (fun c => !isAlnum c) then
          some (String.mk p)
        else none)
      if cleanedParts.length > 1 then some cleanedParts else none
    else none

/-! ## src/scripts/update_network_from_edits.py — update_network_data -/

/-- A network-graph node (fields consulted by the updaters). -/
structure NNode where
  id : String
  label : String
  size : Nat
  shows : Nat
  deriving Repr, DecidableEq

/-- A row of the edited-artists CSV (fields consulted). -/
structure ArtistRow where
  artist_name : String
  total_shows : Nat
  deriving Repr, DecidableEq

/-- A network-graph edge.  `shows` is the optional attached-show list
(absent on un-enhanced networks); its entries are opaque show
references here (the script only extends the list and takes its
length). -/
structure NEdge where
  source : String
  target : String
  weight : Nat
  shows_together : Nat
  shows : Option (List String)
  total_shows : Option Nat
  deriving Repr, DecidableEq

/-- Apply the old-name → new-name mapping to one endpoint. -/
def mapName (mapping : Assoc String) (n : String) : String :=
  match alookup mapping n with
  | some m => m
  | none => n

/-- Merge a colliding edge into the first existing edge with the same
unordered key: show lists are concatenated and the weight fields set to
the combined list's length — but only when both records carry a
`shows` list; otherwise the colliding edge is discarded unchanged. -/
def mergeIntoFirst (key : String × String) (e : NEdge) :
    List NEdge → List NEdge
  | [] => []
  | e2 :: rest =>
    if sort2 e2.source e2.target = key then
      (match e.shows, e2.shows with
       | some shE, some shE2 =>
         let sh := shE2 ++ shE
         { e2 with shows := some sh, total_shows := some sh.length,
                   weight := sh.length, shows_together := sh.length }
       | _, _ => e2) :: rest
    else e2 :: mergeIntoFirst key e rest

/-- One step of the duplicate-removal loop of `update_network_data`:
an edge whose unordered key already occurs among the kept edges is
handed to `mergeIntoFirst` (combined or discarded there), an edge with
a fresh key is appended. -/
def dedupStep (acc : List NEdge) (e : NEdge) : List NEdge :=
  let key := sort2 e.source e.target
  if acc.any (fun e2 => sort2 e2.source e2.target = key) then
    mergeIntoFirst key e acc
  else acc ++ [e]

/-- `update_network_data` (update_network_from_edits.py), nodes and
edges phases; the file metadata update is omitted.  The second
`if node_id in name_mapping` rename inside the node loop is
unreachable (such nodes were already skipped) and is therefore not
represented. -/
def updateNetworkData (nodes : List NNode) (edges : List NEdge)
    (artistsMap : Assoc ArtistRow) (nameMapping : Assoc String) :
    List NNode × List NEdge :=
  let nodesToRemove :=
    (nodes.filter (fun n => (alookup nameMapping n.id).isSome)).map (·.id)
  let updatedNodes := nodes.filterMap (fun n =>
    if (alookup nameMapping n.id).isSome then none
    else
      match alookup artistsMap n.id with
      | some a => some { n with label := a.artist_name,
                                shows := a.total_shows,
                                size := a.total_shows }
      | none => some n)
  let updatedEdges := edges.filterMap (fun e =>
    let src := mapName nameMapping e.source
    let tgt := mapName nameMapping e.target
    if src = tgt then none
    else if nodesToRemove.contains src || nodesToRemove.contains tgt then none
    else some { e with source := src, target := tgt })
  let finalEdges := updatedEdges.foldl dedupStep []
  (updatedNodes, finalEdges)

/-- One step of the duplicate-removal loop of `update_network_file`
(fix_w_artists.py): an edge whose unordered key already occurs among
the kept edges is dropped outright, an edge with a fresh key is
appended. -/
def dropDupStep (acc : List NEdge) (e : NEdge) : List NEdge :=
  if acc.any (fun e2 =>
      sort2 e2.source e2.target = sort2 e.source e.target) then acc
  else acc ++ [e]

/-- The edge phase of `update_network_file` (fix_w_artists.py):
edges touching a removed node are skipped (before re-pointing),
endpoints are re-pointed, and duplicate unordered keys are dropped
outright — never combined.  `nodesToRemove` is the set of node ids that
appear in the mapping, as computed by the node phase. -/
def updateNetworkFileEdges (edges : List NEdge)
    (nameMapping : Assoc String) (nodesToRemove : List String) :
    List NEdge :=
  let updatedEdges := edges.filterMap (fun e =>
    if nodesToRemove.contains e.source || nodesToRemove.contains e.target then
      none
    else some { e with source := mapName nameMapping e.source,
                       target := mapName nameMapping e.target })
  updatedEdges.foldl dropDupStep []

/-! ## Derived definitions used in statements and proofs -/

/-- The last artist in store order whose key set contains `k` — the one
whose write survives in `_rebuild_index` (later entries shadow earlier
ones). -/
def lastWriter : Assoc Artist → String → Option (String × Artist)
  | [], _ => none
  | p :: t, k =>
    match lastWriter t k with
    | some q => some q
    | none => if k ∈ artistKeys p.2 then some p else none

/-- Every fixed keyword the `parse` classification tests by substring
containment (closed/private, open-mic, improv). -/
def ALL_CLASSIFIER_KEYWORDS : List String :=
  CLOSED_EVENT_KEYWORDS ++ ["open-mic", "open mic"] ++
    ["thrillionaires", "improv theater"]

/-- A one-artist, one-show store used as a concrete merge input. -/
def sampleStore : DataStore :=
  { artists := [("a1", ⟨"a1", "Neon Trees", []⟩)]
    shows := [("s1", ⟨"s1", [⟨"a1", 0, true⟩]⟩)]
    index := [("neon trees", "a1")] }

/-! ## Association-list lemmas -/

theorem alookup_aset_self {β : Type} (l : Assoc β) (k : String) (v : β) :
    alookup (aset l k v) k = some v := by
  induction l with
  | nil => simp [aset, alookup]
  | cons p t ih =>
    by_cases h : p.1 = k
    · simp [aset, alookup, h]
    · simp [aset, alookup, h, ih]

theorem alookup_aset_ne {β : Type} (l : Assoc β) (k k' : String) (v : β)
    (h : k' ≠ k) : alookup (aset l k v) k' = alookup l k' := by
  have hne : ¬ k = k' := fun hh => h hh.symm
  induction l with
  | nil => simp [aset, alookup, hne]
  | cons p t ih =>
    by_cases hp : p.1 = k
    · have hp' : p.1 ≠ k' := fun he => hne (hp.symm.trans he)
      simp [aset, alookup, hp, hp', hne]
    · simp [aset, alookup, hp, ih]

theorem aset_append_of_not_mem {β : Type} (l : Assoc β) (k : String) (v : β)
    (h : alookup l k = none) : aset l k v = l ++ [(k, v)] := by
  induction l with
  | nil => simp [aset]
  | cons p t ih =>
    by_cases hp : p.1 = k
    · simp [alookup, hp] at h
    · simp only [alookup, hp, if_false] at h
      simp [aset, hp, ih h]

theorem alookup_some_mem {β : Type} {l : Assoc β} {k : String} {v : β}
    (h : alookup l k = some v) : (k, v) ∈ l := by
  induction l with
  | nil => simp [alookup] at h
  | cons p t ih =>
    by_cases hp : p.1 = k
    · simp only [alookup, hp, if_true, Option.some.injEq] at h
      have : p = (k, v) := Prod.ext hp h
      rw [← this]
      exact List.mem_cons_self _ _
    · simp only [alookup, hp, if_false] at h
      exact List.mem_cons_of_mem _ (ih h)

theorem alookup_eq_of_mem {β : Type} {l : Assoc β} {k : String} {v : β}
    (hnd : (l.map Prod.fst).Nodup) (hm : (k, v) ∈ l) :
    alookup l k = some v := by
  induction l with
  | nil => simp at hm
  | cons p t ih =>
    rw [List.map_cons, List.nodup_cons] at hnd
    rcases List.mem_cons.mp hm with h | h
    · rw [← h]
      simp [alookup]
    · have hk : p.1 ≠ k := by
        intro he
        apply hnd.1
        rw [he]
        exact List.mem_map.mpr ⟨(k, v), h, rfl⟩
      simp only [alookup, hk, if_false]
      exact ih hnd.2 h

theorem alookup_adel_ne {β : Type} (l : Assoc β) (k k' : String)
    (h : k' ≠ k) : alookup (adel l k) k' = alookup l k' := by
  induction l with
  | nil => simp [adel]
  | cons p t ih =>
    by_cases hp : p.1 = k
    · have hp' : p.1 ≠ k' := fun he => h (he.symm.trans hp)
      have hne : ¬ k = k' := fun hh => h hh.symm
      simp [adel, alookup, hp, hp', hne]
    · simp [adel, alookup, hp, ih]

/-! ## Index-rebuild lemmas -/

theorem alookup_foldl_aset (als : List String) (v : String)
    (i0 : Assoc String) (k : String) :
    alookup (als.foldl (fun i al => aset i (normalizeName al) v) i0) k =
      if k ∈ als.map normalizeName then some v else alookup i0 k := by
  induction als generalizing i0 with
  | nil => simp
  | cons al rest ih =>
    rw [List.foldl_cons, ih]
    by_cases hm : k ∈ rest.map normalizeName
    · simp [hm]
    · by_cases hk : k = normalizeName al
      · simp [hm, hk, alookup_aset_self]
      · simp [hm, hk, alookup_aset_ne _ _ _ _ hk]

theorem alookup_applyKeys (idx : Assoc String) (a : Artist) (k : String) :
    alookup (applyKeys idx a) k =
      if k ∈ artistKeys a then some a.id else alookup idx k := by
  unfold applyKeys
  rw [alookup_foldl_aset]
  by_cases hm : k ∈ a.aliases.map normalizeName
  · simp [artistKeys, hm]
  · by_cases hk : k = normalizeName a.name
    · simp [artistKeys, hm, hk, alookup_aset_self]
    · simp [artistKeys, hm, hk, alookup_aset_ne _ _ _ _ hk]

theorem alookup_rebuild_aux (arts : Assoc Artist) (i0 : Assoc String)
    (k : String) :
    alookup (arts.foldl (fun i q => applyKeys i q.2) i0) k =
      match lastWriter arts k with
      | some q => some q.2.id
      | none => alookup i0 k := by
  induction arts generalizing i0 with
  | nil => simp [lastWriter]
  | cons p t ih =>
    rw [List.foldl_cons, ih]
    cases hl : lastWriter t k with
    | some q => simp [lastWriter, hl]
    | none =>
      simp only [lastWriter, hl]
      rw [alookup_applyKeys]
      by_cases hm : k ∈ artistKeys p.2
      · simp [hm]
      · simp [hm]

theorem alookup_rebuild (arts : Assoc Artist) (k : String) :
    alookup (rebuildIndex arts) k =
      (lastWriter arts k).map (fun q => q.2.id) := by
  unfold rebuildIndex
  rw [alookup_rebuild_aux]
  cases lastWriter arts k <;> simp [alookup]

theorem lastWriter_mem {arts : Assoc Artist} {k : String}
    {q : String × Artist} (h : lastWriter arts k = some q) :
    q ∈ arts ∧ k ∈ artistKeys q.2 := by
  induction arts with
  | nil => simp [lastWriter] at h
  | cons p t ih =>
    simp only [lastWriter] at h
    cases hl : lastWriter t k with
    | some q' =>
      rw [hl] at h
      cases h
      exact ⟨List.mem_cons_of_mem _ (ih hl).1, (ih hl).2⟩
    | none =>
      rw [hl] at h
      by_cases hm : k ∈ artistKeys p.2
      · rw [if_pos hm] at h
        cases h
        exact ⟨List.mem_cons_self _ _, hm⟩
      · rw [if_neg hm] at h
        cases h

theorem lastWriter_none_iff {arts : Assoc Artist} {k : String} :
    lastWriter arts k = none ↔ ∀ q ∈ arts, k ∉ artistKeys q.2 := by
  induction arts with
  | nil => simp [lastWriter]
  | cons p t ih =>
    constructor
    · intro h q hq
      simp only [lastWriter] at h
      cases hl : lastWriter t k with
      | some q' =>
        rw [hl] at h
        exact absurd h (by simp)
      | none =>
        rw [hl] at h
        by_cases hm : k ∈ artistKeys p.2
        · rw [if_pos hm] at h
          exact absurd h (by simp)
        · rcases List.mem_cons.mp hq with he | ht
          · rw [he]; exact hm
          · exact ih.mp hl q ht
    · intro h
      have hl' : lastWriter t k = none :=
        ih.mpr (fun q hq => h q (List.mem_cons_of_mem _ hq))
      have hm : k ∉ artistKeys p.2 := h p (List.mem_cons_self _ _)
      simp only [lastWriter, hl', if_neg hm]

theorem lastWriter_append_singleton (l : Assoc Artist) (x : String × Artist)
    (k : String) :
    lastWriter (l ++ [x]) k =
      if k ∈ artistKeys x.2 then some x else lastWriter l k := by
  induction l with
  | nil => rfl
  | cons p t ih =>
    simp only [List.cons_append, lastWriter, List.append_eq]
    rw [ih]
    by_cases hm : k ∈ artistKeys x.2
    · simp [hm]
    · simp [hm]

theorem lastWriter_middle (pre post : Assoc Artist) (x : String × Artist)
    (k : String) :
    lastWriter (pre ++ x :: post) k =
      match lastWriter post k with
      | some q => some q
      | none => if k ∈ artistKeys x.2 then some x else lastWriter pre k := by
  induction pre with
  | nil =>
    cases hl : lastWriter post k with
    | some q => simp [lastWriter, hl]
    | none => simp only [List.nil_append, lastWriter, hl]
  | cons p t ih =>
    simp only [List.cons_append, lastWriter, List.append_eq]
    rw [ih]
    cases hl : lastWriter post k with
    | some q => rfl
    | none =>
      by_cases hm : k ∈ artistKeys x.2
      · simp [hm]
      · simp [hm]

theorem aset_split {β : Type} {l : Assoc β} {k : String} {v : β}
    (h : alookup l k = some v) (w : β) :
    ∃ pre post, l = pre ++ (k, v) :: post ∧ alookup pre k = none ∧
      aset l k w = pre ++ (k, w) :: post := by
  induction l with
  | nil => simp [alookup] at h
  | cons p t ih =>
    by_cases hp : p.1 = k
    · simp only [alookup, hp, if_true, Option.some.injEq] at h
      refine ⟨[], t, ?_, by simp [alookup], ?_⟩
      · have : p = (k, v) := Prod.ext hp h
        rw [this]
        simp
      · simp only [aset, hp, if_true, List.nil_append]
    · simp only [alookup, hp, if_false] at h
      obtain ⟨pre, post, h1, h2, h3⟩ := ih h
      refine ⟨p :: pre, post, by rw [List.cons_append, ← h1], ?_, ?_⟩
      · simp [alookup, hp, h2]
      · simp only [aset, hp, if_false, h3, List.cons_append]

/-! ## Resolver-state lemmas -/

theorem findWithId_spec {s : DataStore} {al key : String} {art : Artist}
    (h : findWithId s al = some (key, art)) :
    alookup s.index (normalizeName al) = some key ∧ key ≠ "" ∧
      alookup s.artists key = some art := by
  unfold findWithId at h
  cases hidx : alookup s.index (normalizeName al) with
  | none => rw [hidx] at h; simp at h
  | some id0 =>
    rw [hidx, Option.some_bind] at h
    by_cases hid : id0 = ""
    · rw [if_pos hid] at h; simp at h
    · rw [if_neg hid] at h
      cases hart : alookup s.artists id0 with
      | none => rw [hart] at h; simp at h
      | some a =>
        rw [hart] at h
        simp only [Option.map_some', Option.some.injEq, Prod.mk.injEq] at h
        obtain ⟨h1, h2⟩ := h
        subst h1
        subst h2
        exact ⟨rfl, hid, hart⟩

theorem no_writer_of_find_fail {s : DataStore} {name : String}
    (hWF : storeWF s) (hI : indexMatchesRebuild s)
    (h : findArtistByName s name = none) :
    lastWriter s.artists (normalizeName name) = none := by
  cases hl : lastWriter s.artists (normalizeName name) with
  | none => rfl
  | some q =>
    exfalso
    obtain ⟨hqmem, _⟩ := lastWriter_mem hl
    have hidx : alookup s.index (normalizeName name) = some q.2.id := by
      rw [hI, alookup_rebuild, hl]
      rfl
    obtain ⟨hq1, hq2⟩ := hWF.2 q hqmem
    have hart : alookup s.artists q.1 = some q.2 :=
      alookup_eq_of_mem hWF.1 (by simpa using hqmem)
    unfold findArtistByName findWithId at h
    rw [hidx, Option.some_bind, hq1, if_neg hq2, hart] at h
    simp at h

theorem addArtist_imr {s : DataStore} {a : Artist}
    (hfresh : alookup s.artists a.id = none)
    (hI : indexMatchesRebuild s) :
    indexMatchesRebuild (addArtist s a) := by
  intro k
  show alookup (applyKeys s.index a) k =
    alookup (rebuildIndex (aset s.artists a.id a)) k
  rw [aset_append_of_not_mem _ _ _ hfresh, alookup_applyKeys,
      alookup_rebuild, lastWriter_append_singleton]
  by_cases hm : k ∈ artistKeys a
  · simp [hm]
  · rw [if_neg hm, if_neg hm, hI k, alookup_rebuild]

theorem aliasLoop_imr {s : DataStore} {name : String} {als : List String}
    {r : Artist × DataStore}
    (hWF : storeWF s) (hI : indexMatchesRebuild s)
    (hfind : findArtistByName s name = none)
    (h : aliasLoop s name als = some r) :
    indexMatchesRebuild r.2 := by
  induction als with
  | nil => simp [aliasLoop] at h
  | cons al rest ih =>
    cases hfw : findWithId s al with
    | none =>
      simp only [aliasLoop, hfw] at h
      exact ih h
    | some ka =>
      obtain ⟨key, art⟩ := ka
      simp only [aliasLoop, hfw] at h
      by_cases hcond : name ∉ art.aliases ∧ name ≠ art.name
      · rw [if_pos hcond, Option.some.injEq] at h
        obtain ⟨_, _, hart⟩ := findWithId_spec hfw
        rw [← h]
        intro k
        have hnw : lastWriter s.artists (normalizeName name) = none :=
          no_writer_of_find_fail hWF hI hfind
        obtain ⟨pre, post, hsplit, _, hset⟩ := aset_split hart
          { art with aliases := art.aliases ++ [name] }
        show alookup (aset s.index (normalizeName name) art.id) k =
          alookup (rebuildIndex (aset s.artists key
            { art with aliases := art.aliases ++ [name] })) k
        rw [hset, alookup_rebuild, lastWriter_middle]
        by_cases hk : k = normalizeName name
        · rw [hk, alookup_aset_self]
          have hpost : lastWriter post (normalizeName name) = none := by
            rw [lastWriter_none_iff]
            intro q hq
            exact lastWriter_none_iff.mp hnw q
              (by rw [hsplit]
                  exact List.mem_append_right _ (List.mem_cons_of_mem _ hq))
          rw [hpost]
          have hmem : normalizeName name ∈
              artistKeys { art with aliases := art.aliases ++ [name] } := by
            simp [artistKeys]
          rw [if_pos hmem]
          rfl
        · rw [alookup_aset_ne _ _ _ _ hk, hI k, alookup_rebuild, hsplit,
              lastWriter_middle]
          have hkeys : k ∈ artistKeys { art with aliases := art.aliases ++ [name] } ↔
              k ∈ artistKeys art := by
            simp [artistKeys, hk]
          cases hpost : lastWriter post k with
          | some q => rfl
          | none =>
            by_cases hma : k ∈ artistKeys art
            · rw [if_pos hma, if_pos (hkeys.mpr hma)]
              rfl
            · rw [if_neg hma, if_neg (fun hh => hma (hkeys.mp hh))]
      · rw [if_neg hcond, Option.some.injEq] at h
        rw [← h]
        exact hI

theorem collect_none {s : DataStore} {mids : List String}
    (h : ∃ m ∈ mids, alookup s.artists m = none) :
    collectMergeArtists s mids = none := by
  induction mids with
  | nil => simp at h
  | cons mid rest ih =>
    obtain ⟨m, hm, hnone⟩ := h
    rcases List.mem_cons.mp hm with he | ht
    · subst he
      simp [collectMergeArtists, hnone]
    · cases hmid : alookup s.artists mid with
      | none => simp [collectMergeArtists, hmid]
      | some a => simp [collectMergeArtists, hmid, ih ⟨m, ht, hnone⟩]

theorem collect_ids {s : DataStore} {mids : List String} {L : List Artist}
    (hWF : storeWF s) (h : collectMergeArtists s mids = some L) :
    L.map (fun a => a.id) = mids := by
  induction mids generalizing L with
  | nil =>
    simp only [collectMergeArtists, Option.some.injEq] at h
    rw [← h]
    rfl
  | cons mid rest ih =>
    simp only [collectMergeArtists] at h
    cases hmid : alookup s.artists mid with
    | none => rw [hmid] at h; simp at h
    | some a =>
      rw [hmid] at h
      cases hrest : collectMergeArtists s rest with
      | none => rw [hrest] at h; simp at h
      | some L' =>
        rw [hrest] at h
        simp only [Option.map_some', Option.some.injEq] at h
        rw [← h]
        have hid : a.id = mid := (hWF.2 (mid, a) (alookup_some_mem hmid)).1
        simp [hid, ih hrest]

theorem delArtists_ok {arts : Assoc Artist} {L : List Artist}
    (hkeys : ∀ a ∈ L, alookup arts a.id ≠ none)
    (hnd : (L.map (fun a => a.id)).Nodup) :
    (delArtists arts L).1 = true := by
  induction L generalizing arts with
  | nil => rfl
  | cons a rest ih =>
    rw [List.map_cons, List.nodup_cons] at hnd
    cases hl : alookup arts a.id with
    | none => exact absurd hl (hkeys a (List.mem_cons_self _ _))
    | some _ =>
      simp only [delArtists, hl]
      apply ih
      · intro b hb
        have hne : b.id ≠ a.id := by
          intro he
          exact hnd.1 (he ▸ List.mem_map.mpr ⟨b, hb, rfl⟩)
        rw [alookup_adel_ne _ _ _ hne]
        exact hkeys b (List.mem_cons_of_mem _ hb)
      · exact hnd.2

theorem merge_imr {s : DataStore} {pid : String} {mids : List String}
    (hWF : storeWF s) (hnd : mids.Nodup) (hI : indexMatchesRebuild s) :
    indexMatchesRebuild (mergeArtists s pid mids).2 := by
  by_cases h0 : pid = "" ∨ mids = []
  · simp only [mergeArtists, if_pos h0]
    exact hI
  · cases hp : alookup s.artists pid with
    | none =>
      simp only [mergeArtists, if_neg h0, hp]
      exact hI
    | some primary =>
      cases hc : collectMergeArtists s mids with
      | none =>
        simp only [mergeArtists, if_neg h0, hp, hc]
        exact hI
      | some L =>
        have hids : L.map (fun a => a.id) = mids := collect_ids hWF hc
        have hprimid : primary.id = pid :=
          (hWF.2 (pid, primary) (alookup_some_mem hp)).1
        have hfound : ∀ m ∈ mids, alookup s.artists m ≠ none := by
          intro m hm hno
          rw [collect_none ⟨m, hm, hno⟩] at hc
          exact absurd hc (by simp)
        have hkeys : ∀ a ∈ L,
            alookup (updateArtist
              { s with shows := repointShows s.shows mids pid }
              { primary with aliases := mergeAliases primary L }).artists
                a.id ≠ none := by
          intro a ha
          show alookup (aset s.artists primary.id
            { primary with aliases := mergeAliases primary L }) a.id ≠ none
          have haid : a.id ∈ mids := hids ▸ List.mem_map.mpr ⟨a, ha, rfl⟩
          by_cases hap : a.id = primary.id
          · rw [hap, alookup_aset_self]
            simp
          · rw [alookup_aset_ne _ _ _ _ hap]
            exact hfound a.id haid
        have hok : (delArtists (updateArtist
            { s with shows := repointShows s.shows mids pid }
            { primary with aliases := mergeAliases primary L }).artists L).1
              = true :=
          delArtists_ok hkeys (by rw [hids]; exact hnd)
        simp only [mergeArtists, if_neg h0, hp, hc]
        split
        · next partialArts heq =>
          exfalso
          rw [heq] at hok
          simp at hok
        · next arts' heq =>
          intro k
          rfl

/-! ## Connection-graph lemmas -/

theorem charLtB_asymm {a b : Char} (h : charLtB a b = true) :
    charLtB b a = false := by
  unfold charLtB at h ⊢
  simp only [decide_eq_true_eq] at h
  simp only [decide_eq_false_iff_not]
  omega

theorem charLtB_conn {a b : Char} (h1 : charLtB a b = false)
    (h2 : charLtB b a = false) : a = b := by
  unfold charLtB at h1 h2
  simp only [decide_eq_false_iff_not] at h1 h2
  have h : a.toNat = b.toNat := by omega
  exact Char.eq_of_val_eq (UInt32.toNat.inj h)

theorem listLtChars_asymm : ∀ l1 l2 : List Char,
    listLtChars l1 l2 = true → listLtChars l2 l1 = false := by
  intro l1
  induction l1 with
  | nil =>
    intro l2 h
    cases l2 with
    | nil => simp [listLtChars] at h
    | cons b bs => simp [listLtChars]
  | cons a as ih =>
    intro l2 h
    cases l2 with
    | nil => simp [listLtChars] at h
    | cons b bs =>
      simp only [listLtChars] at h ⊢
      by_cases hab : charLtB a b = true
      · rw [charLtB_asymm hab, if_neg (by simp), if_pos hab]
      · rw [if_neg hab] at h
        by_cases hba : charLtB b a = true
        · rw [if_pos hba] at h
          exact absurd h (by simp)
        · rw [if_neg hba] at h
          rw [if_neg hba, if_neg hab]
          exact ih bs h

theorem listLtChars_conn : ∀ l1 l2 : List Char,
    listLtChars l1 l2 = false → listLtChars l2 l1 = false → l1 = l2 := by
  intro l1
  induction l1 with
  | nil =>
    intro l2 h1 _
    cases l2 with
    | nil => rfl
    | cons b bs => simp [listLtChars] at h1
  | cons a as ih =>
    intro l2 h1 h2
    cases l2 with
    | nil => simp [listLtChars] at h2
    | cons b bs =>
      simp only [listLtChars] at h1 h2
      by_cases hab : charLtB a b = true
      · rw [if_pos hab] at h1
        exact absurd h1 (by simp)
      · by_cases hba : charLtB b a = true
        · rw [if_pos hba] at h2
          exact absurd h2 (by simp)
        · rw [if_neg hab, if_neg hba] at h1
          rw [if_neg hba, if_neg hab] at h2
          rw [charLtB_conn (Bool.eq_false_iff.mpr hab) (Bool.eq_false_iff.mpr hba),
              ih bs h1 h2]

theorem strLt_asymm {a b : String} (h : strLt a b = true) :
    strLt b a = false :=
  listLtChars_asymm a.data b.data h

theorem strLt_conn {a b : String} (h1 : strLt a b = false)
    (h2 : strLt b a = false) : a = b :=
  congrArg String.mk (listLtChars_conn a.data b.data h1 h2)

theorem bumpConn_keys (c : List ((String × String) × Nat))
    (p : String × String) :
    (bumpConn c p).map Prod.fst =
      if p ∈ c.map Prod.fst then c.map Prod.fst
      else c.map Prod.fst ++ [p] := by
  induction c with
  | nil => simp [bumpConn]
  | cons q t ih =>
    obtain ⟨qk, qn⟩ := q
    by_cases hq : qk = p
    · simp [bumpConn, hq]
    · simp only [bumpConn, hq, if_false, List.map_cons]
      rw [ih]
      by_cases hm : p ∈ t.map Prod.fst
      · simp [hm, hq, List.mem_cons, Ne.symm hq]
      · have hpq : ¬ p = qk := fun h => hq h.symm
        simp [hm, List.mem_cons, hpq]

theorem sort2_sorted (a b : String) :
    strLt (sort2 a b).2 (sort2 a b).1 = false := by
  unfold sort2
  by_cases h : strLt b a = true
  · rw [if_pos h]
    exact strLt_asymm h
  · rw [if_neg h]
    exact Bool.eq_false_iff.mpr h

theorem showPairs_sorted (l : List String) :
    ∀ p ∈ showPairs l, strLt p.2 p.1 = false := by
  induction l with
  | nil => simp [showPairs]
  | cons a rest ih =>
    intro p hp
    rw [showPairs, List.mem_append] at hp
    rcases hp with h | h
    · obtain ⟨b, _, hb⟩ := List.mem_map.mp h
      rw [← hb]
      exact sort2_sorted _ _
    · exact ih p h

theorem bumpConn_nodup_sorted {c : List ((String × String) × Nat)}
    {p : String × String}
    (hnd : (c.map Prod.fst).Nodup)
    (hs : ∀ q ∈ c.map Prod.fst, strLt q.2 q.1 = false)
    (hp : strLt p.2 p.1 = false) :
    ((bumpConn c p).map Prod.fst).Nodup ∧
      ∀ q ∈ (bumpConn c p).map Prod.fst, strLt q.2 q.1 = false := by
  rw [bumpConn_keys]
  by_cases hm : p ∈ c.map Prod.fst
  · rw [if_pos hm]
    exact ⟨hnd, hs⟩
  · rw [if_neg hm]
    refine ⟨?_, ?_⟩
    · exact hnd.append (List.nodup_singleton p)
        (List.disjoint_singleton.mpr hm)
    · intro q hq
      rcases List.mem_append.mp hq with h | h
      · exact hs q h
      · rw [List.mem_singleton.mp h]
        exact hp

theorem foldl_bump_inv (ps : List (String × String)) :
    ∀ c : List ((String × String) × Nat),
      (∀ p ∈ ps, strLt p.2 p.1 = false) →
      (c.map Prod.fst).Nodup →
      (∀ q ∈ c.map Prod.fst, strLt q.2 q.1 = false) →
      ((ps.foldl bumpConn c).map Prod.fst).Nodup ∧
        ∀ q ∈ (ps.foldl bumpConn c).map Prod.fst, strLt q.2 q.1 = false := by
  induction ps with
  | nil =>
    intro c _ h1 h2
    exact ⟨h1, h2⟩
  | cons p rest ih =>
    intro c hps h1 h2
    rw [List.foldl_cons]
    obtain ⟨h1p, h2p⟩ :=
      bumpConn_nodup_sorted h1 h2 (hps p (List.mem_cons_self _ _))
    exact ih _ (fun q hq => hps q (List.mem_cons_of_mem _ hq)) h1p h2p

theorem processConnections_inv (shows : List NShow) :
    ((processConnections shows).map Prod.fst).Nodup ∧
      ∀ q ∈ (processConnections shows).map Prod.fst, strLt q.2 q.1 = false := by
  unfold processConnections
  suffices h : ∀ c : List ((String × String) × Nat),
      (c.map Prod.fst).Nodup →
      (∀ q ∈ c.map Prod.fst, strLt q.2 q.1 = false) →
      (((shows.foldl (fun conns sh =>
          let artists := extractArtistsFromShow sh
          if artists.length > 1 then (showPairs artists).foldl bumpConn conns
          else conns) c).map Prod.fst).Nodup ∧
        ∀ q ∈ (shows.foldl (fun conns sh =>
          let artists := extractArtistsFromShow sh
          if artists.length > 1 then (showPairs artists).foldl bumpConn conns
          else conns) c).map Prod.fst, strLt q.2 q.1 = false) by
    exact h [] (by simp) (by simp)
  induction shows with
  | nil =>
    intro c h1 h2
    exact ⟨h1, h2⟩
  | cons sh rest ih =>
    intro c h1 h2
    rw [List.foldl_cons]
    by_cases hlen : (extractArtistsFromShow sh).length > 1
    · simp only [hlen, if_true]
      obtain ⟨h1p, h2p⟩ := foldl_bump_inv _ _
        (showPairs_sorted (extractArtistsFromShow sh)) h1 h2
      exact ih _ h1p h2p
    · simp only [hlen, if_false]
      exact ih _ h1 h2

/-! ## Idempotence helper for get_or_create -/

theorem aliasLoop_res {s : DataStore} {name : String} {als : List String}
    {a1 : Artist} {s1 : DataStore}
    (hWF : storeWF s) (h : aliasLoop s name als = some (a1, s1)) :
    findArtistByName s1 name = some a1 ∨ s1 = s := by
  induction als with
  | nil => simp [aliasLoop] at h
  | cons al rest ih =>
    cases hfw : findWithId s al with
    | none =>
      simp only [aliasLoop, hfw] at h
      exact ih h
    | some ka =>
      obtain ⟨key, art⟩ := ka
      obtain ⟨_, hkey0, hart⟩ := findWithId_spec hfw
      have hartid : art.id = key :=
        (hWF.2 (key, art) (alookup_some_mem hart)).1
      simp only [aliasLoop, hfw] at h
      by_cases hcond : name ∉ art.aliases ∧ name ≠ art.name
      · rw [if_pos hcond, Option.some.injEq, Prod.mk.injEq] at h
        obtain ⟨h1, h2⟩ := h
        left
        rw [← h1, ← h2]
        unfold findArtistByName findWithId
        show Option.map (fun x => x.2)
          ((alookup (aset s.index (normalizeName name) art.id)
            (normalizeName name)).bind (fun artistId =>
              if artistId = "" then none
              else (alookup (aset s.artists key
                { art with aliases := art.aliases ++ [name] })
                  artistId).map (fun a => (artistId, a)))) =
          some { art with aliases := art.aliases ++ [name] }
        rw [alookup_aset_self, Option.some_bind,
            if_neg (by rw [hartid]; exact hkey0), hartid, alookup_aset_self]
        rfl
      · rw [if_neg hcond, Option.some.injEq, Prod.mk.injEq] at h
        exact Or.inr h.2.symm

/-- `mergeIntoFirst` merges into the first kept edge carrying the
colliding key: when both records have a show list, the lists are
concatenated and every weight field becomes the combined length. -/
theorem mergeIntoFirst_combine (pre post : List NEdge) (e2 e : NEdge)
    (shE shE2 : List String)
    (hpre : ∀ x ∈ pre, sort2 x.source x.target ≠ sort2 e.source e.target)
    (h2 : sort2 e2.source e2.target = sort2 e.source e.target)
    (he : e.shows = some shE) (he2 : e2.shows = some shE2) :
    mergeIntoFirst (sort2 e.source e.target) e (pre ++ e2 :: post) =
      pre ++ { e2 with shows := some (shE2 ++ shE),
                       total_shows := some (shE2 ++ shE).length,
                       weight := (shE2 ++ shE).length,
                       shows_together := (shE2 ++ shE).length } :: post := by
  revert hpre
  induction pre with
  | nil =>
    intro _
    simp [mergeIntoFirst, h2, he, he2]
  | cons x t ih =>
    intro hpre
    have hx : ¬(sort2 x.source x.target = sort2 e.source e.target) :=
      hpre x (by simp)
    have ht : ∀ y ∈ t, sort2 y.source y.target ≠ sort2 e.source e.target :=
      fun y hy => hpre y (by simp [hy])
    simp [mergeIntoFirst, hx, ih ht]

/-- When either record lacks a show list, `mergeIntoFirst` leaves the
kept edges unchanged — the colliding edge is discarded. -/
theorem mergeIntoFirst_drop (pre post : List NEdge) (e2 e : NEdge)
    (hpre : ∀ x ∈ pre, sort2 x.source x.target ≠ sort2 e.source e.target)
    (h2 : sort2 e2.source e2.target = sort2 e.source e.target)
    (h : e.shows = none ∨ e2.shows = none) :
    mergeIntoFirst (sort2 e.source e.target) e (pre ++ e2 :: post) =
      pre ++ e2 :: post := by
  revert hpre
  induction pre with
  | nil =>
    intro _
    rcases h with h | h
    · cases hos : e2.shows <;> simp [mergeIntoFirst, h2, h, hos]
    · cases hos : e.shows <;> simp [mergeIntoFirst, h2, h, hos]
  | cons x t ih =>
    intro hpre
    have hx : ¬(sort2 x.source x.target = sort2 e.source e.target) :=
      hpre x (by simp)
    have ht : ∀ y ∈ t, sort2 y.source y.target ≠ sort2 e.source e.target :=
      fun y hy => hpre y (by simp [hy])
    simp [mergeIntoFirst, hx, ih ht]

/-- In the fix_w_artists edge phase, an edge with an endpoint among the
removed nodes never reaches the output: prepending such an edge changes
nothing. -/
theorem updateNetworkFileEdges_skip (x : NEdge) (t : List NEdge)
    (nm : Assoc String) (rem : List String)
    (hx : (rem.contains x.source || rem.contains x.target) = true) :
    updateNetworkFileEdges (x :: t) nm rem =
      updateNetworkFileEdges t nm rem := by
  have hx2 : x.source ∈ rem ∨ x.target ∈ rem := by simpa using hx
  simp [updateNetworkFileEdges, List.filterMap_cons, hx2]

/-! ## Claim theorems -/

/-- C1 (amended): the rebuild half of the invariant holds — for every
single Resolver mutation (add_artist with a fresh id,
get_or_create_artist with a fresh uuid, update_artist, merge with a
duplicate-free id list) applied to a well-formed store whose index
matches the rebuilt index, the index after the mutation again equals
the index rebuilt from the entity set.  The injectivity half is not
enforced by the code (see the counterexample). -/
theorem C1_index_rebuild (s : DataStore) (m : Mutation)
    (hWF : storeWF s) (hI : indexMatchesRebuild s) (hOK : mutOK s m) :
    indexMatchesRebuild (applyMutation s m) := by
  cases m with
  | add a => exact addArtist_imr hOK hI
  | update a => intro k; rfl
  | getOrCreate n als fid =>
    show indexMatchesRebuild (getOrCreateArtist s n als fid).2
    cases hf : findArtistByName s n with
    | some a =>
      simp only [getOrCreateArtist, hf]
      exact hI
    | none =>
      cases hal : aliasLoop s n als with
      | some r =>
        simp only [getOrCreateArtist, hf, hal]
        exact aliasLoop_imr hWF hI hf hal
      | none =>
        simp only [getOrCreateArtist, hf, hal]
        exact addArtist_imr hOK.2 hI
  | merge pid mids => exact merge_imr hOK.1 hOK.2 hI

/-- Counterexample for C1: `add_artist` performs no uniqueness check,
so adding two artists with the same name "X" leaves two live entities
that share the normalization key — the claimed injectivity invariant is
false. -/
theorem C1_counterexample :
    keysInjective (applyMutation (applyMutation emptyStore
        (.add ⟨"id1", "X", []⟩)) (.add ⟨"id2", "X", []⟩)) = false ∧
    (applyMutation (applyMutation emptyStore (.add ⟨"id1", "X", []⟩))
        (.add ⟨"id2", "X", []⟩)).artists.length = 2 := by
  exact ⟨by decide, by decide⟩

/-- Witness for C1: the hypotheses hold at the empty store with a fresh
add, and the theorem applies there. -/
theorem C1_witness :
    storeWF emptyStore ∧ indexMatchesRebuild emptyStore ∧
      mutOK emptyStore (.add ⟨"id1", "X", []⟩) ∧
      indexMatchesRebuild (applyMutation emptyStore
        (.add ⟨"id1", "X", []⟩)) :=
  ⟨⟨List.nodup_nil, fun p hp => absurd hp (List.not_mem_nil p)⟩,
    fun _ => rfl, rfl,
    C1_index_rebuild emptyStore (.add ⟨"id1", "X", []⟩)
      ⟨List.nodup_nil, fun p hp => absurd hp (List.not_mem_nil p)⟩
      (fun _ => rfl) rfl⟩

/-- C2 (amended): a merge naming an unknown primary id or an unknown id
in merge_ids is rejected as a hard error (HTTP 400/404) and leaves the
store — entities, show links and name index — completely unchanged.
(The self-merge case is NOT rejected; see the counterexample.) -/
theorem C2_unknown_id_rejected_atomically (s : DataStore) (pid : String)
    (mids : List String)
    (h : alookup s.artists pid = none ∨
      ∃ m ∈ mids, alookup s.artists m = none) :
    ((mergeArtists s pid mids).1 = MergeOutcome.badRequest ∨
      (mergeArtists s pid mids).1 = MergeOutcome.notFound) ∧
    (mergeArtists s pid mids).2 = s := by
  by_cases h0 : pid = "" ∨ mids = []
  · simp only [mergeArtists, if_pos h0]
    exact ⟨Or.inl (by trivial), by trivial⟩
  · cases hp : alookup s.artists pid with
    | none =>
      simp only [mergeArtists, if_neg h0, hp]
      exact ⟨Or.inr (by trivial), by trivial⟩
    | some primary =>
      have hex : ∃ m ∈ mids, alookup s.artists m = none := by
        rcases h with h | h
        · rw [hp] at h
          exact absurd h (by simp)
        · exact h
      simp only [mergeArtists, if_neg h0, hp, collect_none hex]
      exact ⟨Or.inr (by trivial), by trivial⟩

/-- Counterexample for C2: a self-merge (primary_id contained in
merge_ids) is not rejected — it reports success and deletes the primary
entity itself, mutating the entity set. -/
theorem C2_counterexample :
    (mergeArtists sampleStore "a1" ["a1"]).1 = MergeOutcome.success 1 ∧
    (mergeArtists sampleStore "a1" ["a1"]).2.artists = [] ∧
    sampleStore.artists ≠ [] := by
  exact ⟨by decide, by decide, by decide⟩

/-- Witness for C2: merging an unknown primary id "zz" on the sample
store is rejected and leaves the store unchanged. -/
theorem C2_witness :
    (alookup sampleStore.artists "zz" = none ∨
      ∃ m ∈ ["a1"], alookup sampleStore.artists m = none) ∧
    (((mergeArtists sampleStore "zz" ["a1"]).1 = MergeOutcome.badRequest ∨
      (mergeArtists sampleStore "zz" ["a1"]).1 = MergeOutcome.notFound) ∧
      (mergeArtists sampleStore "zz" ["a1"]).2 = sampleStore) :=
  ⟨Or.inl (by decide),
    C2_unknown_id_rejected_atomically sampleStore "zz" ["a1"]
      (Or.inl (by decide))⟩

/-- C3 (amended): the co-occurrence builder stores every edge under the
sorted unordered pair and keeps at most one record per pair (no
parallel edges, keys pairwise distinct, and two keys describing the
same unordered pair are equal).  It does NOT prevent self-loops when
two distinct raw display names normalize to the same key (see the
counterexample). -/
theorem C3_no_parallel_edges (shows : List NShow) :
    ((processConnections shows).map Prod.fst).Nodup ∧
    (∀ p ∈ (processConnections shows).map Prod.fst, strLt p.2 p.1 = false) ∧
    ∀ p ∈ (processConnections shows).map Prod.fst,
      ∀ q ∈ (processConnections shows).map Prod.fst,
        (p.1 = q.1 ∧ p.2 = q.2) ∨ (p.1 = q.2 ∧ p.2 = q.1) → p = q := by
  obtain ⟨h1, h2⟩ := processConnections_inv shows
  refine ⟨h1, h2, ?_⟩
  intro p hp q hq hun
  rcases hun with ⟨ha, hb⟩ | ⟨ha, hb⟩
  · exact Prod.ext ha hb
  · have hps : strLt p.2 p.1 = false := h2 p hp
    have hqs : strLt q.2 q.1 = false := h2 q hq
    rw [← ha, ← hb] at hqs
    have h12 : p.1 = p.2 := strLt_conn hqs hps
    refine Prod.ext ?_ ?_
    · rw [h12, hb]
    · rw [← h12, ha]

/-- Counterexample for C3: a show whose bill lists two distinct raw
display names that normalize to the same key ("Neon Trees" and
"NEON TREES") produces a self-loop edge. -/
theorem C3_counterexample :
    ∃ p ∈ (processConnections
      [⟨some "2006-01-13", some "Neon Trees, NEON TREES", none, none⟩]).map
        Prod.fst, p.1 = p.2 := by
  decide

/-- C4 (amended): in the `update_network_data` duplicate-removal loop,
an incoming edge whose unordered pair collides with a kept edge is
combined with it only when BOTH records carry a `shows` list — the
lists are concatenated and every weight field set to the combined
length (weights 2 and 1 give 3 in the spec's Neon Trees example) — and
is silently dropped, its weight discarded, when either record lacks
one; the fix_w_artists updater never combines: its duplicate-removal
step drops every colliding edge outright, and every edge touching a
removed node is dropped before re-pointing. -/
theorem C4_collision_merge :
    (∀ (pre post : List NEdge) (e2 e : NEdge) (shE shE2 : List String),
      (∀ x ∈ pre, sort2 x.source x.target ≠ sort2 e.source e.target) →
      sort2 e2.source e2.target = sort2 e.source e.target →
      e.shows = some shE → e2.shows = some shE2 →
      dedupStep (pre ++ e2 :: post) e =
        pre ++ { e2 with shows := some (shE2 ++ shE),
                         total_shows := some (shE2 ++ shE).length,
                         weight := (shE2 ++ shE).length,
                         shows_together := (shE2 ++ shE).length } :: post) ∧
    (∀ (pre post : List NEdge) (e2 e : NEdge),
      (∀ x ∈ pre, sort2 x.source x.target ≠ sort2 e.source e.target) →
      sort2 e2.source e2.target = sort2 e.source e.target →
      (e.shows = none ∨ e2.shows = none) →
      dedupStep (pre ++ e2 :: post) e = pre ++ e2 :: post) ∧
    (∀ (acc : List NEdge) (e : NEdge),
      acc.any (fun e2 =>
        sort2 e2.source e2.target = sort2 e.source e.target) = true →
      dropDupStep acc e = acc) ∧
    (∀ (edges : List NEdge) (nm : Assoc String) (rem : List String),
      (∀ e ∈ edges,
        (rem.contains e.source || rem.contains e.target) = true) →
      updateNetworkFileEdges edges nm rem = []) ∧
    (updateNetworkData
      [⟨"band x", "Band X", 3, 3⟩, ⟨"neon tree", "Neon Tree", 1, 1⟩,
       ⟨"neon trees", "Neon Trees", 2, 2⟩]
      [⟨"neon trees", "band x", 2, 2, some ["show1", "show2"], some 2⟩,
       ⟨"neon tree", "band x", 1, 1, some ["show3"], some 1⟩]
      [] [("neon tree", "neon trees")]).2 =
      [⟨"neon trees", "band x", 3, 3, some ["show1", "show2", "show3"],
        some 3⟩] := by
  refine ⟨?_, ?_, ?_, ?_, by decide⟩
  · intro pre post e2 e shE shE2 hpre h2 he he2
    have hany : ((pre ++ e2 :: post).any (fun x =>
        sort2 x.source x.target = sort2 e.source e.target)) = true :=
      List.any_eq_true.mpr ⟨e2, by simp, by simp [h2]⟩
    simp only [dedupStep, hany, if_true]
    exact mergeIntoFirst_combine pre post e2 e shE shE2 hpre h2 he he2
  · intro pre post e2 e hpre h2 h
    have hany : ((pre ++ e2 :: post).any (fun x =>
        sort2 x.source x.target = sort2 e.source e.target)) = true :=
      List.any_eq_true.mpr ⟨e2, by simp, by simp [h2]⟩
    simp only [dedupStep, hany, if_true]
    exact mergeIntoFirst_drop pre post e2 e hpre h2 h
  · intro acc e h
    simp [dropDupStep, h]
  · intro edges nm rem
    induction edges with
    | nil => intro _; rfl
    | cons x t ih =>
      intro h
      rw [updateNetworkFileEdges_skip x t nm rem (h x (by simp))]
      exact ih (fun e he => h e (by simp [he]))

/-- Witness for C4: on a kept edge and a colliding edge that both carry
a show list, the duplicate-removal step combines them (show lists
concatenated, weight the combined length). -/
theorem C4_witness :
    dedupStep
        ([] ++ (⟨"neon trees", "band x", 2, 2, some ["s1", "s2"],
          some 2⟩ : NEdge) :: [])
        ⟨"neon trees", "band x", 1, 1, some ["s3"], some 1⟩ =
      [] ++ { (⟨"neon trees", "band x", 2, 2, some ["s1", "s2"],
          some 2⟩ : NEdge) with
        shows := some (["s1", "s2"] ++ ["s3"]),
        total_shows := some ((["s1", "s2"] ++ ["s3"] : List String)).length,
        weight := ((["s1", "s2"] ++ ["s3"] : List String)).length,
        shows_together :=
          ((["s1", "s2"] ++ ["s3"] : List String)).length } :: [] :=
  C4_collision_merge.1 [] [] _ _ ["s3"] ["s1", "s2"]
    (by simp) (by decide) (by rfl) (by rfl)

/-- Counterexample for C4: with edges that carry no `shows` list
(weights 2 and 1), the colliding edge is silently dropped — the
surviving edge has weight 2, not the claimed sum 3. -/
theorem C4_counterexample :
    (updateNetworkData
      [⟨"band x", "Band X", 3, 3⟩, ⟨"neon tree", "Neon Tree", 1, 1⟩,
       ⟨"neon trees", "Neon Trees", 2, 2⟩]
      [⟨"neon trees", "band x", 2, 2, none, none⟩,
       ⟨"neon tree", "band x", 1, 1, none, none⟩]
      [] [("neon tree", "neon trees")]).2.map NEdge.weight = [2] ∧
    (2 : Nat) ≠ 1 + 2 := by
  exact ⟨by decide, by decide⟩

/-- C5: get_or_create_artist is idempotent — on a well-formed store,
calling it twice with the same name (and alias list) returns the same
entity id both times, and the second call creates no new entity. -/
theorem C5_get_or_create_idempotent (s : DataStore) (name : String)
    (aliases : List String) (fid1 fid2 : String)
    (hWF : storeWF s) (hfid : fid1 ≠ "") :
    (getOrCreateArtist (getOrCreateArtist s name aliases fid1).2
        name aliases fid2).1.id =
      (getOrCreateArtist s name aliases fid1).1.id ∧
    (getOrCreateArtist (getOrCreateArtist s name aliases fid1).2
        name aliases fid2).2.artists.length =
      (getOrCreateArtist s name aliases fid1).2.artists.length := by
  cases hf : findArtistByName s name with
  | some a =>
    simp only [getOrCreateArtist, hf]
    exact ⟨by trivial, by trivial⟩
  | none =>
    cases hal : aliasLoop s name aliases with
    | some r =>
      obtain ⟨a1, s1⟩ := r
      simp only [getOrCreateArtist, hf, hal]
      rcases aliasLoop_res hWF hal with hres | hres
      · simp only [getOrCreateArtist, hres]
        exact ⟨by trivial, by trivial⟩
      · subst hres
        simp only [getOrCreateArtist, hf, hal]
        exact ⟨by trivial, by trivial⟩
    | none =>
      simp only [getOrCreateArtist, hf, hal]
      have hfind2 : findArtistByName
          (addArtist s ⟨fid1, name, aliases⟩) name =
            some ⟨fid1, name, aliases⟩ := by
        unfold findArtistByName findWithId
        show ((alookup (applyKeys s.index ⟨fid1, name, aliases⟩)
            (normalizeName name)).bind _).map _ = _
        rw [alookup_applyKeys, if_pos (by simp [artistKeys]),
            Option.some_bind, if_neg hfid]
        show Option.map (fun x => x.2)
          ((alookup (aset s.artists fid1 ⟨fid1, name, aliases⟩)
            fid1).map (fun a => (fid1, a))) = some ⟨fid1, name, aliases⟩
        rw [alookup_aset_self]
        rfl
      simp only [getOrCreateArtist, hfind2]
      exact ⟨by trivial, by trivial⟩

/-- Witness for C5: creating "Neon Trees" twice on the empty store
returns the same id and leaves the entity count unchanged. -/
theorem C5_witness :
    storeWF emptyStore ∧ ("fid-1" : String) ≠ "" ∧
    ((getOrCreateArtist (getOrCreateArtist emptyStore "Neon Trees" []
        "fid-1").2 "Neon Trees" [] "fid-2").1.id =
      (getOrCreateArtist emptyStore "Neon Trees" [] "fid-1").1.id ∧
    (getOrCreateArtist (getOrCreateArtist emptyStore "Neon Trees" []
        "fid-1").2 "Neon Trees" [] "fid-2").2.artists.length =
      (getOrCreateArtist emptyStore "Neon Trees" [] "fid-1").2.artists.length) :=
  ⟨⟨List.nodup_nil, fun p hp => absurd hp (List.not_mem_nil p)⟩,
    by decide,
    C5_get_or_create_idempotent emptyStore "Neon Trees" [] "fid-1" "fid-2"
      ⟨List.nodup_nil, fun p hp => absurd hp (List.not_mem_nil p)⟩
      (by decide)⟩

/-- C6 (amended): every listing classified as a non-performance event
type short-circuits with an empty candidate list and needs_review
false; the confidence is 1.0 for the closed and open-mic
classifications but 0.9 for improv (see the counterexample). -/
theorem C6_shortcircuit (title description : String)
    (h : (isClosedEvent (lowerStr (title ++ " " ++ description)) ||
          isOpenMic (lowerStr (title ++ " " ++ description)) ||
          isImprov (lowerStr (title ++ " " ++ description))) = true) :
    (parse title description).artists = [] ∧
    (parse title description).needs_review = false ∧
    (parse title description).confidence =
      (if isClosedEvent (lowerStr (title ++ " " ++ description)) ||
          isOpenMic (lowerStr (title ++ " " ++ description))
       then (1 : ℚ) else 9/10) := by
  cases h1 : isClosedEvent (lowerStr (title ++ " " ++ description)) with
  | true => simp [parse, h1]
  | false =>
    cases h2 : isOpenMic (lowerStr (title ++ " " ++ description)) with
    | true => simp [parse, h1, h2]
    | false =>
      rw [h1, h2] at h
      simp only [Bool.false_or] at h
      simp [parse, h1, h2, h]

/-- Counterexample for C6: an improv listing short-circuits with
confidence 0.9, not the claimed 1.0. -/
theorem C6_counterexample :
    (parse "The Thrillionaires (Improv Theater)" "").artists = [] ∧
    (parse "The Thrillionaires (Improv Theater)" "").confidence = 9/10 ∧
    ((9 : ℚ)/10) ≠ 1 := by
  exact ⟨by rfl, by rfl, by norm_num⟩

/-- Witness for C6: an open-mic listing. -/
theorem C6_witness :
    ((isClosedEvent (lowerStr ("Open-Mic Acoustic Night" ++ " " ++ "")) ||
      isOpenMic (lowerStr ("Open-Mic Acoustic Night" ++ " " ++ "")) ||
      isImprov (lowerStr ("Open-Mic Acoustic Night" ++ " " ++ ""))) = true) ∧
    ((parse "Open-Mic Acoustic Night" "").artists = [] ∧
     (parse "Open-Mic Acoustic Night" "").needs_review = false ∧
     (parse "Open-Mic Acoustic Night" "").confidence =
      (if isClosedEvent (lowerStr ("Open-Mic Acoustic Night" ++ " " ++ "")) ||
          isOpenMic (lowerStr ("Open-Mic Acoustic Night" ++ " " ++ ""))
       then (1 : ℚ) else 9/10)) :=
  ⟨by decide, C6_shortcircuit "Open-Mic Acoustic Night" "" (by decide)⟩

/-- C7 (amended): after the with-marker and comma splits the tokenizer
splits a piece on the word "and" exactly when the lowercased whole
piece contains " and " and does not contain "& the" anywhere — for
every piece: a piece without " and " is never split (in particular the
bare symbol "&" is never a separator), a piece containing "& the"
anywhere is never split, and a piece meeting both conditions is split
by the and-separator; concretely "A and The B" is split, "A and B & the
C" and "Meg & Dia" are not, and the example title still yields exactly
the two candidates. -/
theorem C7_tokenizer_behavior :
    (∀ sub : List Char,
      (containsL (lowerL sub) " and ".data = false → andStep sub = [sub]) ∧
      (containsL (lowerL sub) "& the".data = true → andStep sub = [sub]) ∧
      (containsL (lowerL sub) " and ".data = true →
        containsL (lowerL sub) "& the".data = false →
        andStep sub = splitByMatcher matchAndSep sub.length sub)) ∧
    splitArtists "Lady Venus & The Vixens w/ Band X" =
      ["Lady Venus & The Vixens", "Band X"] ∧
    splitArtists "Meg & Dia" = ["Meg & Dia"] ∧
    splitArtists "A and The B" = ["A", "The B"] ∧
    splitArtists "A and B & the C" = ["A and B & the C"] := by
  refine ⟨fun sub => ⟨?_, ?_, ?_⟩, by decide, by decide, by decide,
    by decide⟩
  · intro h
    simp [andStep, h]
  · intro h
    simp [andStep, h]
  · intro h1 h2
    simp [andStep, h1, h2]

/-- Witness for C7: a piece containing " and " and no "& the" is split
by the and-separator. -/
theorem C7_witness :
    andStep "A and B".data =
      splitByMatcher matchAndSep "A and B".data.length "A and B".data :=
  (C7_tokenizer_behavior.1 "A and B".data).2.2 (by decide) (by decide)

/-- Counterexample for C7: the tokenizer never splits on the symbol
"&": "Band A & Band B" stays a single candidate even though the token
after the separator does not begin with "the" (the claim predicts the
split ["Band A", "Band B"]). -/
theorem C7_counterexample :
    splitArtists "Band A & Band B" = ["Band A & Band B"] ∧
    splitArtists "Band A & Band B" ≠ ["Band A", "Band B"] := by
  exact ⟨by decide, by decide⟩

/-- C8 (amended): `split_artist_name` (fix_w_artists.py) returns null
for a name that begins with the "w/" marker, guessing no candidates;
the llm_parser tokenizer, however, does not special-case a leading
marker and returns the string as a single candidate (see the
counterexample). -/
theorem C8_leading_marker_no_split (name : String)
    (h : leadingWMarker name = true) : splitArtistName name = none := by
  unfold splitArtistName
  rw [if_pos h]

/-- Counterexample for C8: the llm_parser tokenizer applied to a string
beginning with the with-marker yields one candidate containing the
marker, not the claimed empty list. -/
theorem C8_counterexample :
    splitArtists "w/ Band X" = ["w/ Band X"] ∧
    splitArtists "w/ Band X" ≠ [] := by
  exact ⟨by decide, by decide⟩

/-- Witness for C8. -/
theorem C8_witness :
    leadingWMarker "w/ Band X" = true ∧
      splitArtistName "w/ Band X" = none :=
  ⟨by decide, C8_leading_marker_no_split "w/ Band X" (by decide)⟩

/-- C9 (amended): the llm_parser noise filter `_is_noise` rejects a
cleaned name exactly when it is shorter than 2 characters or its
lowercase form is an exact whole-string member of the fixed noise
vocabulary — containment of a noise term as a proper substring does not
reject there; the network script's `_clean_artist_name`, by contrast,
also rejects any name merely containing one of its generic terms as a
substring (see the counterexample). -/
theorem C9_is_noise_exact (token : String) :
    isNoise token = true ↔
      (NOISE_TERMS.contains (lowerStr token) = true ∨ token.length < 2) := by
  unfold isNoise
  simp [Bool.or_eq_true, decide_eq_true_eq]

/-- Counterexample for C9: "Nightingale" merely contains the noise term
"night" as a proper substring — `_is_noise` accepts it, but the network
cleaner `_clean_artist_name` rejects it (returns the empty string),
contradicting the claim that containment alone never rejects. -/
theorem C9_counterexample :
    cleanArtistNameNet "Nightingale" = "" ∧
    isNoise "Nightingale" = false ∧
    2 ≤ ("Nightingale" : String).length := by
  exact ⟨by decide, by decide, by decide⟩

/-- C10: event-type classification tests each fixed keyword by
substring containment in the lowercased concatenation of title and
description, so any listing whose combined text contains one of the
keywords anywhere makes parse return an empty candidate list. -/
theorem C10_keyword_shortcircuit (title description : String)
    (h : ∃ kw ∈ ALL_CLASSIFIER_KEYWORDS,
      containsStr (lowerStr (title ++ " " ++ description)) kw = true) :
    (parse title description).artists = [] := by
  obtain ⟨kw, hkw, hc⟩ := h
  have h3 : (isClosedEvent (lowerStr (title ++ " " ++ description)) ||
      isOpenMic (lowerStr (title ++ " " ++ description)) ||
      isImprov (lowerStr (title ++ " " ++ description))) = true := by
    unfold ALL_CLASSIFIER_KEYWORDS at hkw
    rcases List.mem_append.mp hkw with h12 | hi
    · rcases List.mem_append.mp h12 with h1 | h2
      · have hce : isClosedEvent (lowerStr (title ++ " " ++ description))
            = true := List.any_eq_true.mpr ⟨kw, h1, hc⟩
        simp [hce]
      · have hkw2 : kw = "open-mic" ∨ kw = "open mic" := by simpa using h2
        have hom : isOpenMic (lowerStr (title ++ " " ++ description))
            = true := by
          unfold isOpenMic
          rcases hkw2 with h | h <;> subst h <;> simp [hc]
        simp [hom]
    · have hkw2 : kw = "thrillionaires" ∨ kw = "improv theater" := by
        simpa using hi
      have him : isImprov (lowerStr (title ++ " " ++ description))
          = true := by
        unfold isImprov
        rcases hkw2 with h | h <;> subst h <;> simp [hc]
      simp [him]
  cases h1 : isClosedEvent (lowerStr (title ++ " " ++ description)) with
  | true => simp [parse, h1]
  | false =>
    cases h2 : isOpenMic (lowerStr (title ++ " " ++ description)) with
    | true => simp [parse, h1, h2]
    | false =>
      rw [h1, h2] at h3
      simp only [Bool.false_or] at h3
      simp [parse, h1, h2, h3]

/-- Witness for C10: a listing containing "flea market" together with
extractable artist names yields no candidates. -/
theorem C10_witness :
    (∃ kw ∈ ALL_CLASSIFIER_KEYWORDS,
      containsStr (lowerStr
        ("Flea Market w/ Neon Trees, Brother Chunky" ++ " " ++ "")) kw
          = true) ∧
    (parse "Flea Market w/ Neon Trees, Brother Chunky" "").artists = [] :=
  ⟨⟨"flea market", by decide, by decide⟩,
    C10_keyword_shortcircuit "Flea Market w/ Neon Trees, Brother Chunky" ""
      ⟨"flea market", by decide, by decide⟩⟩

end PMM
